import Mathlib

/-
Verification of the minusql structured-query compiler (src/index.js) against
its design specification.  JavaScript values that can appear in a query
description are modelled by the inductive type JVal; the compiler is embedded
as a writer-style computation that emits a list of pieces (text fragments and
parameter slots), from which the chunk list, the parameter vector and the
final SQL text of the source are derived exactly as the source computes them.
-/

/-- JavaScript values that the query compiler dispatches on.
`varv` models a parameter wrapper object `\x7b$: v, type?: t\x7d`;
`rex` models a RegExp literal by its source and flags;
`sym` models a column-reference Symbol by its description;
`undef` models the JavaScript value undefined. -/
inductive JVal where
  | null : JVal
  | undef : JVal
  | bool (b : Bool) : JVal
  | num (n : Int) : JVal
  | str (s : String) : JVal
  | sym (d : String) : JVal
  | rex (source flags : String) : JVal
  | varv (payload : JVal) (type : Option String) : JVal
  | arr (xs : List JVal) : JVal
  | obj (kvs : List (String × JVal)) : JVal

/-- A compiled-output piece: either literal SQL text or a parameter slot.
The source keeps a chunk array and a params array; interleaving them in
order is exactly this piece list (see chunksOf / paramsOf below). -/
inductive Piece where
  | text (s : String) : Piece
  | param (v : JVal) : Piece

/-- The two dialects (src/index.js isMySQL / isPostgres). -/
inductive Flavor where
  | mysql
  | postgres
deriving DecidableEq, Repr

/-- Relevant configuration: flavor plus the convertCase flag
(defaulted to true by the SQL constructor, src/index.js lines 881-883). -/
structure Cfg where
  flavor : Flavor
  convertCase : Bool
deriving DecidableEq, Repr

def isMySQLCfg (cfg : Cfg) : Bool := cfg.flavor = Flavor.mysql

def isPostgresCfg (cfg : Cfg) : Bool := cfg.flavor = Flavor.postgres

/-- One step of the toSnakeCase replacement
`replace(/(([a-z])(?=[A-Z]([a-zA-Z]|$))|([A-Z])(?=[A-Z][a-z]))/g, \x7b dollar\x7d1_)`:
an underscore is inserted after a character that is (a) lowercase and followed
by an uppercase letter that is itself followed by a letter or the end of the
string, or (b) uppercase and followed by an uppercase letter then a lowercase
letter.  The scan consumes one character per match, like the global regex. -/
def snakeUnderscores : List Char → List Char
  | c1 :: c2 :: c3 :: rest =>
      if (c1.isLower && c2.isUpper && c3.isAlpha) ||
         (c1.isUpper && c2.isUpper && c3.isLower) then
        c1 :: '_' :: snakeUnderscores (c2 :: c3 :: rest)
      else
        c1 :: snakeUnderscores (c2 :: c3 :: rest)
  | [c1, c2] =>
      if c1.isLower && c2.isUpper then [c1, '_', c2] else [c1, c2]
  | l => l

/-- src/index.js toSnakeCase (lines 5-7); the guard `k ? ... : k` makes it the
identity on the empty string. JavaScript toLowerCase agrees with Char.toLower
on the ASCII identifiers this library handles. -/
def toSnakeCase (k : String) : String :=
  if k = "" then k
  else String.mk ((snakeUnderscores k.toList).map Char.toLower)

/-- src/index.js escapeMysqlIdent, forbidQualified absent: double embedded
backticks, then close and reopen the quotes around every dot. -/
def escapeMysqlIdent (v : String) : String :=
  "`" ++ String.mk (v.toList.flatMap fun c =>
    if c = '`' then ['`', '`']
    else if c = '.' then ['`', '.', '`']
    else [c]) ++ "`"

/-- src/index.js escapePostgresIdent, forbidQualified absent. -/
def escapePostgresIdent (v : String) : String :=
  "\"" ++ String.mk (v.toList.flatMap fun c =>
    if c = '"' then ['"', '"']
    else if c = '.' then ['"', '.', '"']
    else [c]) ++ "\""

/-- src/index.js CHARS_ESCAPE_MAP as a per-character translation. -/
def mysqlEscapeChar (c : Char) : List Char :=
  if c = Char.ofNat 0 then ['\\', '0']
  else if c = Char.ofNat 8 then ['\\', 'b']
  else if c = '\t' then ['\\', 't']
  else if c = '\n' then ['\\', 'n']
  else if c = '\r' then ['\\', 'r']
  else if c = Char.ofNat 26 then ['\\', 'Z']
  else if c = '"' then ['\\', '"']
  else if c = '\'' then ['\\', '\'']
  else if c = '\\' then ['\\', '\\']
  else [c]

/-- src/index.js escapeMysqlString (lines 28-48).  The source walks the string
with a global regex and copies unmatched stretches verbatim; that is exactly a
per-character translation by CHARS_ESCAPE_MAP, wrapped in single quotes. -/
def escapeMysqlString (v : String) : String :=
  "'" ++ String.mk (v.toList.flatMap mysqlEscapeChar) ++ "'"

/-- src/index.js escapePostgresString (lines 56-75): double quotes and
backslashes, and prepend E when any backslash was escaped. -/
def escapePostgresString (v : String) : String :=
  let quoted := "'" ++ String.mk (v.toList.flatMap fun c =>
    if c = '\'' then [c, c]
    else if c = '\\' then [c, c]
    else [c]) ++ "'"
  if v.toList.contains '\\' then "E" ++ quoted else quoted

def escapeStringFor (cfg : Cfg) (v : String) : String :=
  if isPostgresCfg cfg then escapePostgresString v else escapeMysqlString v

/-- ASCII uppercasing (JavaScript toUpperCase on the ASCII names this
library handles), written over the character list so that it reduces in the
kernel. -/
def jsToUpper (s : String) : String :=
  String.mk (s.toList.map Char.toUpper)

/-- ASCII lowercasing, list-based like jsToUpper. -/
def jsToLower (s : String) : String :=
  String.mk (s.toList.map Char.toLower)

/-- List-based string join with a separator (Array.prototype.join). -/
def joinSep (sep : String) : List String → String
  | [] => ""
  | [x] => x
  | x :: y :: rest => x ++ sep ++ joinSep sep (y :: rest)

/-- List-based startsWith for the anchor tests of the pattern translator. -/
def strStartsWith (pre : String) (s : String) : Bool :=
  pre.toList.isPrefixOf s.toList

/-- List-based endsWith. -/
def strEndsWith (suf : String) (s : String) : Bool :=
  suf.toList.isSuffixOf s.toList

/-- src/index.js MaybeUnaryOperators (lines 87-89). -/
def MaybeUnaryOperators : List String :=
  ["-", "~", "#", "@@", "@-@", "?-", "!!", ":", "|/", "||/", "@", "%"]

/-- src/index.js BinaryOperators (lines 90-102). -/
def BinaryOperators : List String :=
  ["=", "!=", "<>", ">", ">=", "<", "<=",
   ">>", "<<", "%", "MOD", "DIV",
   "LIKE", "NOT LIKE", "ILIKE", "NOT ILIKE", "SIMILAR TO", "NOT SIMILAR TO",
   "REGEXP", "RLIKE", "NOT REGEXP", "NOT RLIKE", "SOUNDS LIKE",
   "~~", "!~~", "~", "~*", "!~", "!~*",
   "->", "->>", "#>", "#>>", "@>", "<@", "?", "?|", "?&", "#-",
   "@@", "&&", "<->",
   "#", "@-@", "@@", "##", "<^", ">^", "?#", "?-", "?-|", "?||",
   "&&&", "&<", "&<|", "&>", "<<|", "@", "|&>", "|>>", "~=", "|=|", "<#>", "<<->>",
   "<%", "%>", "<<%", "%>>", "<<->", "<->>", "<<<->", "<->>>",
   "AT TIME ZONE", "OVERLAPS", ">>=", "<<=", "!!=", "-|-"]

/-- src/index.js Operators (lines 103-108). -/
def Operators : List String :=
  BinaryOperators ++
  ["+", "-", "*", "/", "&", "|", "^", "AND", "OR", "XOR", "||"]

/-- JavaScript truthiness of the values a query description can contain. -/
def jsTruthy : JVal → Bool
  | .null => false
  | .undef => false
  | .bool b => b
  | .num n => n ≠ 0
  | .str s => s ≠ ""
  | _ => true

/-- JavaScript typeof for JVal (null and all object-like values give
"object"). -/
def typeofOf : JVal → String
  | .null => "object"
  | .undef => "undefined"
  | .bool _ => "boolean"
  | .num _ => "number"
  | .str _ => "string"
  | .sym _ => "symbol"
  | _ => "object"

/-- isVar (src/index.js lines 77-79): a parameter wrapper is a non-null
object with a `$` property; in this model exactly the varv constructor. -/
def isVarJ : JVal → Bool
  | .varv _ _ => true
  | _ => false

/-- The declared type of a wrapper (`value.type` in the source; reading the
property off any other value yields undefined, here none). -/
def jvalType : JVal → Option String
  | .varv _ t => t
  | _ => none

/-- `value.$` for a wrapper (only read in branches guarded by isVar). -/
def jvalPayload : JVal → JVal
  | .varv p _ => p
  | v => v

mutual
/-- JavaScript String() coercion used by template strings and Array.join.
Arrays join their elements with commas; plain objects display as
[object Object].  (Coercing a Symbol actually throws in JavaScript; no
compiled path in this development depends on that corner, so a readable
rendering is used.) -/
def jsDisplay : JVal → String
  | .null => "null"
  | .undef => "undefined"
  | .bool b => if b then "true" else "false"
  | .num n => toString n
  | .str s => s
  | .sym d => "Symbol(" ++ d ++ ")"
  | .rex src flags => "/" ++ src ++ "/" ++ flags
  | .varv _ _ => "[object Object]"
  | .arr xs => jsDisplayList xs
  | .obj _ => "[object Object]"
termination_by structural v => v

/-- Array.prototype.toString: elements coerced and comma-joined, with null
and undefined elements rendering as the empty string. -/
def jsDisplayList : List JVal → String
  | [] => ""
  | [JVal.null] => ""
  | [JVal.undef] => ""
  | [x] => jsDisplay x
  | JVal.null :: y :: rest => "," ++ jsDisplayList (y :: rest)
  | JVal.undef :: y :: rest => "," ++ jsDisplayList (y :: rest)
  | x :: y :: rest => jsDisplay x ++ "," ++ jsDisplayList (y :: rest)
termination_by structural l => l
end

mutual
/-- JSON.stringify, restricted to the JVal shapes (used only inside the
Unsupported-type error message of value()). -/
def jsonOf : JVal → String
  | .null => "null"
  | .undef => "undefined"
  | .bool b => if b then "true" else "false"
  | .num n => toString n
  | .str s => "\"" ++ s ++ "\""
  | .sym _ => "undefined"
  | .rex _ _ => "\x7b\x7d"
  | .varv p t => "\x7b\"$\":" ++ jsonOf p ++
      (match t with
       | some ty => ",\"type\":\"" ++ ty ++ "\"\x7d"
       | none => "\x7d")
  | .arr xs => "[" ++ jsonList xs ++ "]"
  | .obj kvs => "\x7b" ++ jsonPairs kvs ++ "\x7d"
termination_by structural v => v

def jsonList : List JVal → String
  | [] => ""
  | [x] => jsonOf x
  | x :: y :: rest => jsonOf x ++ "," ++ jsonList (y :: rest)
termination_by structural l => l

def jsonPairs : List (String × JVal) → String
  | [] => ""
  | [(k, v)] => "\"" ++ k ++ "\":" ++ jsonOf v
  | (k, v) :: p :: rest =>
      "\"" ++ k ++ "\":" ++ jsonOf v ++ "," ++ jsonPairs (p :: rest)
termination_by structural l => l
end

/-- Compilation errors (section 7 of the spec), raised synchronously by the
source via throw new Error(...). -/
inductive Err where
  | arity (fn : String) (expected actual : Nat) : Err
  | firstElement (got : String) : Err
  | keywordExpected (got : String) : Err
  | inTypeErr (fn : String) (tname : String) : Err
  | unsupportedType (tname : String) (json : String) : Err
  | unknownConflictRule (src : String) : Err
  | conflictRequired : Err
  | uniqueRequired : Err
  | keysOfUndefined : Err
  | outOfFuel : Err
deriving DecidableEq, Repr

/-- The exact messages of the source's Error objects. -/
def Err.message : Err → String
  | .arity fn expected actual =>
      "\"" ++ fn ++ "\" requires exactly " ++ toString expected ++
      " operands (" ++ toString actual ++ " supplied)"
  | .firstElement got =>
      "First element of array-style expression must a function/operator name, got \"" ++
      got ++ "\" instead"
  | .keywordExpected got =>
      "Keyword expected here, got \"" ++ got ++ "\" instead"
  | .inTypeErr fn tname =>
      "\"" ++ fn ++ "\" should take array as its second argument, " ++
      tname ++ " supplied"
  | .unsupportedType tname json =>
      "Unsupported type: " ++ tname ++ ", " ++ json
  | .unknownConflictRule src =>
      "Unknown conflict rule: " ++ src
  | .conflictRequired =>
      "\"conflict\" should be either false (to ignore conflicts) or an update object when \"unique\" is set"
  | .uniqueRequired =>
      "Specifying \"conflict\" on Postgres requires also specifying \"unique\" fields (constraints)"
  | .keysOfUndefined =>
      "Cannot convert undefined or null to object"
  | .outOfFuel =>
      "recursion depth bound exhausted (embedding artifact, never raised for sufficient fuel)"

/-- The compiler as a writer computation: it either fails with the first
raised error or returns a value together with the pieces appended to the
statement buffer, in order.  (A thrown error aborts the whole compile in the
source as well; the partially mutated buffer is discarded by every caller.) -/
def M (α : Type) : Type := Except Err (α × List Piece)

instance : Monad M where
  pure a := Except.ok (a, [])
  bind x f :=
    match x with
    | .error e => .error e
    | .ok (a, ps) =>
        match f a with
        | .error e => .error e
        | .ok (b, qs) => .ok (b, ps ++ qs)

/-- QueryParts.append with a single string argument: extend the current
chunk. -/
def emit (s : String) : M Unit := Except.ok ((), [Piece.text s])

/-- QueryParts.append(pre, v, post): extend the current chunk with pre, push
v on params, and open a new chunk holding post (the source pushes an empty
string when no trailing text is supplied). -/
def emitParam (v : JVal) : M Unit := Except.ok ((), [Piece.param v])

def throwE {α : Type} (e : Err) : M α := Except.error e

def okM {α : Type} (a : α) (ps : List Piece) : M α := Except.ok (a, ps)

/-- QueryParts.ident / Builder.ident (src/index.js lines 148-154, 737-743):
`*` passes through; otherwise optional case conversion, then dialect
quoting. -/
def identF (cfg : Cfg) (name : String) : String :=
  if name = "*" then "*"
  else
    let converted := if cfg.convertCase then toSnakeCase name else name
    if isMySQLCfg cfg then escapeMysqlIdent converted else escapePostgresIdent converted

/-- The keyword-safety test `/^[A-Za-z ]+/.test(name)` (line 157): the regex
is anchored only at the start and needs at least one character, so it passes
exactly when the first character is an ASCII letter or a space; the rest of
the string is unconstrained. -/
def keywordOk (name : String) : Bool :=
  match name.toList with
  | [] => false
  | c :: _ => c.isAlpha || c = ' '

/-- QueryParts.keyword (lines 156-161).  A non-string argument is coerced to
its string form by the regex test and by the interpolation at the caller. -/
def keywordF (v : JVal) : M String :=
  let s := jsDisplay v
  if keywordOk s then okM s [] else throwE (.keywordExpected s)

/-- replace(/^\^/, ...): strip one leading caret. -/
def stripCaret (s : String) : String :=
  match s.toList with
  | '^' :: rest => String.mk rest
  | _ => s

/-- replace(/\$$/, ...): strip one trailing dollar. -/
def stripDollar (s : String) : String :=
  if strEndsWith "$" s then String.mk s.toList.dropLast else s

/-- replace(/%/g, ...) and replace(/_/g, ...): escape the LIKE
metacharacters. -/
def escapeLikeMeta (c0 : Char) (l : List Char) : List Char :=
  l.flatMap fun c => if c = c0 then ['\\', c0] else [c]

/-- replace(/\.\*/g, ...): a left-to-right non-overlapping scan turning each
`.*` into `%`. -/
def dotStarToPercent : List Char → List Char
  | '.' :: '*' :: rest => '%' :: dotStarToPercent rest
  | c :: rest => c :: dotStarToPercent rest
  | [] => []

/-- replace(/\./g, ...): remaining dots become single-character wildcards. -/
def dotToUnderscore (l : List Char) : List Char :=
  l.map fun c => if c = '.' then '_' else c

/-- The translation chain of QueryParts.regexp lines 167-170, in source
order: strip anchors, escape % and _, turn .* into %, turn . into _. -/
def likeXform (source : String) : String :=
  String.mk (dotToUnderscore (dotStarToPercent
    (escapeLikeMeta '_' (escapeLikeMeta '%'
      (stripDollar (stripCaret source)).toList))))

/-- Lines 172-177: prepend % when the source is unanchored at the start and
the translated pattern does not already begin with %; append % when the
source is unanchored at the end and the pattern does not already end with an
unescaped %. -/
def likePattern (source : String) : String :=
  let p1 := likeXform source
  let p2 := if !strStartsWith "^" source && !strStartsWith "%" p1 then "%" ++ p1 else p1
  if !strEndsWith "$" source && (!strEndsWith "%" p2 || strEndsWith "\\%" p2) then
    p2 ++ "%"
  else p2

def regexSpecialChars : List Char :=
  ['^', '$', '(', ')', '[', ']', Char.ofNat 123, Char.ofNat 125, '?', '+', '*', '|']

def hasSpecialChar (p : String) : Bool :=
  p.toList.any fun c => regexSpecialChars.contains c

/-- /\\[dDsSwWbB]/.test(source): a backslash character-class escape. -/
def hasCharClass : List Char → Bool
  | '\\' :: c :: rest =>
      ['d', 'D', 's', 'S', 'w', 'W', 'b', 'B'].contains c || hasCharClass (c :: rest)
  | _ :: rest => hasCharClass rest
  | [] => false

/-- /\(\?[=!:]/.test(source): a lookaround or non-capturing group. -/
def hasLookaround : List Char → Bool
  | '(' :: '?' :: c :: rest =>
      ['=', '!', ':'].contains c || hasLookaround ('?' :: c :: rest)
  | _ :: rest => hasLookaround rest
  | [] => false

/-- The isComplex classification of lines 179-182. -/
def isComplexFor (source pattern : String) : Bool :=
  hasSpecialChar pattern || hasCharClass source.toList || hasLookaround source.toList

/-- replace(/\\b/g, doubled backslash y): Postgres word-boundary syntax. -/
def backslashBToY : List Char → List Char
  | '\\' :: 'b' :: rest => '\\' :: 'y' :: backslashBToY rest
  | c :: rest => c :: backslashBToY rest
  | [] => []

/-- this.value(s, inVar) where s is a plain string: the parameter path when
inVar is set, the inline string-literal path otherwise (lines 213-246). -/
def valueString (cfg : Cfg) (s : String) (inVar : Bool) : M Unit :=
  if inVar then emitParam (JVal.str s)
  else emit (escapeStringFor cfg s)

/-- The result of QueryParts.regexp: the translated pattern together with the
closure that appends the comparison for a left-hand column.  The complex flag
records which branch produced it. -/
structure RegexpRes where
  pattern : String
  complex : Bool
  appendF : String → Bool → M Unit

/-- Model of the wall clock read Date.now()/1000 performed for the literal
string NOW under the unixtime type; fixed at zero here, no claim depends on
its value. -/
def jsClockSeconds : Int := 0

/-- The argument of the timestamp-construction call (lines 226-230): a Date
gives its epoch seconds (Dates are not modelled), the string NOW
(case-insensitively) gives the current clock, anything else passes through. -/
def unixtimeArg : JVal → JVal
  | .str s => if jsToUpper s = "NOW" then .num jsClockSeconds else .str s
  | v => v

/-- The source text that the CASE branch of expr accidentally appends: line
316 passes its callback as the first argument of append, which coerces the
function to a string and pushes the separator as a parameter.  The exact
characters of the coerced function source are irrelevant to every claim. -/
def caseClosureSource : String :=
  "(cond, i) => \x7b ... \x7d"

/-- QueryParts.regexp (lines 163-211). -/
def regexpF (cfg : Cfg) (source flags : String) (forceRegExp : Bool) : RegexpRes :=
  let isCaseSensitive := !flags.toList.contains 'i'
  let native : RegexpRes :=
    if isPostgresCfg cfg then
      let pattern := String.mk (backslashBToY source.toList)
      { pattern := pattern, complex := true,
        appendF := fun lhs inVar => do
          emit (identF cfg lhs ++ (if isCaseSensitive then " ~ " else " ~* "))
          valueString cfg pattern inVar }
    else
      { pattern := source, complex := true,
        appendF := fun lhs inVar => do
          emit (identF cfg lhs ++ " REGEXP ")
          valueString cfg source inVar
          emit (if isCaseSensitive then "" else " COLLATE utf8_general_ci") }
  if !forceRegExp then
    let pattern := likePattern source
    if !isComplexFor source pattern then
      { pattern := pattern, complex := false,
        appendF := fun lhs inVar =>
          if isCaseSensitive then do
            emit (identF cfg lhs ++ " LIKE ")
            valueString cfg pattern inVar
          else if isPostgresCfg cfg then do
            emit (identF cfg lhs ++ " ILIKE ")
            valueString cfg pattern inVar
          else do
            emit ("LOWER(" ++ identF cfg lhs ++ ") LIKE ")
            valueString cfg (jsToLower pattern) inVar }
    else native
  else native


mutual
/-- QueryParts.value (src/index.js lines 213-254).  The Nat argument is a
recursion-depth bound, an artifact of the embedding: it is decremented on
every recursive call and irrelevant whenever it exceeds the nesting depth of
the compiled value (the source compiler is total), so every theorem below
either quantifies over it or instantiates it generously.  The Bool mirrors
the inVar flag: when set, the argument itself is the raw value to bind. -/
def valueM (cfg : Cfg) : Nat → JVal → Bool → M Unit
  | 0, _, _ => throwE .outOfFuel
  | fuel + 1, value, inVar =>
    if isVarJ value || inVar then
      match (if inVar then value else jvalPayload value) with
      | .arr xs => valueListM cfg fuel xs true
      | v0 =>
        let v1 := match v0 with
          | .rex src flags => JVal.str (regexpF cfg src flags true).pattern
          | other => other
        if jvalType value = some "unixtime" then do
          emit (if isPostgresCfg cfg then "TO_TIMESTAMP(" else "FROM_UNIXTIME(")
          emitParam (unixtimeArg v1)
          emit ")"
        else
          match (if inVar then none else jvalType value) with
          | some ty =>
              if ty = "" then emitParam v1
              else if isPostgresCfg cfg then do
                emitParam v1
                emit ("::" ++ ty)
              else do
                emit "CAST("
                emitParam v1
                emit (" AS " ++ ty ++ ")")
          | none => emitParam v1
    else
      match value with
      | .null => emit "NULL"
      | .undef => emit "NULL"
      | .sym d => emit (identF cfg d)
      | .bool b =>
          emit (if isPostgresCfg cfg then (if b then "'t'" else "'f'")
                else (if b then "true" else "false"))
      | .num n => emit (toString n)
      | .str s => emit (escapeStringFor cfg s)
      | .rex src flags => emit (escapeStringFor cfg (regexpF cfg src flags true).pattern)
      | other => throwE (.unsupportedType (typeofOf other) (jsonOf other))

/-- append(v, el => this.value(el, true), comma) for an array-valued
parameter (line 218). -/
def valueListM (cfg : Cfg) : Nat → List JVal → Bool → M Unit
  | 0, _, _ => throwE .outOfFuel
  | _ + 1, [], _ => pure ()
  | fuel + 1, x :: rest, first => do
      if first = false then emit ","
      valueM cfg fuel x true
      valueListM cfg fuel rest false

/-- QueryParts.expr (lines 256-361).  The result is the value held by the
caller's expression object after the call: array expressions lose their
first element (e.shift(), line 262) and their remaining elements are
replaced by their own post-compilation values. -/
def exprM (cfg : Cfg) : Nat → JVal → M JVal
  | 0, _ => throwE .outOfFuel
  | fuel + 1, e =>
    match e with
    | .arr xs =>
        match xs with
        | [] => throwE (.firstElement (jsDisplay JVal.undef))
        | x :: rest =>
            match x with
            | .str s => do
                let posts ← exprArrM cfg fuel (jsToUpper s) rest
                pure (JVal.arr posts)
            | other => throwE (.firstElement (jsDisplay other))
    | .obj kvs => do
        let posts ← exprObjM cfg fuel kvs true
        pure (JVal.obj posts)
    | other => do
        valueM cfg fuel other false
        pure other

/-- The array-expression dispatch of expr after the operator name has been
shifted off and uppercased (lines 262-338). -/
def exprArrM (cfg : Cfg) : Nat → String → List JVal → M (List JVal)
  | 0, _, _ => throwE .outOfFuel
  | fuel + 1, fn, ops =>
    match ops with
    | [a] =>
        if MaybeUnaryOperators.contains fn then do
          emit (fn ++ " ")
          let p ← exprM cfg fuel a
          pure [p]
        else exprArrMain cfg fuel fn [a]
    | other => exprArrMain cfg fuel fn other

/-- The non-unary part of the array-expression dispatch (lines 271-338). -/
def exprArrMain (cfg : Cfg) : Nat → String → List JVal → M (List JVal)
  | 0, _, _ => throwE .outOfFuel
  | fuel + 1, fn, ops =>
    if Operators.contains fn then
      if BinaryOperators.contains fn ∧ ops.length ≠ 2 then
        throwE (.arity fn 2 ops.length)
      else do
        emit "("
        let ps ← exprListM cfg fuel ops (" " ++ fn ++ " ") true
        emit ")"
        pure ps
    else if fn = "IN" ∨ fn = "NOTIN" ∨ fn = "NOT IN" then
      match ops with
      | [a, b] => do
          let pa ← exprM cfg fuel a
          emit (if fn = "IN" then " IN (" else " NOT IN (")
          if isVarJ b then do
            valueM cfg fuel b false
            emit ")"
            pure [pa, b]
          else
            match b with
            | .arr ys => do
                let ys2 ← exprListM cfg fuel ys "," true
                emit ")"
                pure [pa, .arr ys2]
            | other => throwE (.inTypeErr fn (typeofOf other))
      | _ => throwE (.arity fn 2 ops.length)
    else if fn = "IS NULL" ∨ fn = "IS NOT NULL" then
      match ops with
      | [a] => do
          let p ← exprM cfg fuel a
          emit (" " ++ fn ++ " ")
          pure [p]
      | _ => throwE (.arity fn 1 ops.length)
    else if fn = "NOT" then
      match ops with
      | [a] => do
          emit (" " ++ fn ++ " ")
          let p ← exprM cfg fuel a
          pure [p]
      | _ => throwE (.arity fn 1 ops.length)
    else if fn = "BETWEEN" ∨ fn = "NOT BETWEEN" then
      match ops with
      | [a, b, c] => do
          let pa ← exprM cfg fuel a
          emit (" " ++ fn ++ " ")
          let pb ← exprM cfg fuel b
          emit " AND "
          let pc ← exprM cfg fuel c
          pure [pa, pb, pc]
      | _ => throwE (.arity fn 3 ops.length)
    else if fn = "TYPE" then
      match ops with
      | [a, b] => do
          let kw ← keywordF b
          emit (kw ++ " ")
          let p ← exprM cfg fuel a
          pure [p, b]
      | _ => throwE (.arity fn 2 ops.length)
    else if fn = "CAST" then
      match ops with
      | [a, b] =>
          if isPostgresCfg cfg then do
            let p ← exprM cfg fuel a
            let kw ← keywordF b
            emit ("::" ++ kw)
            pure [p, b]
          else do
            emit "CAST("
            let p ← exprM cfg fuel a
            let kw ← keywordF b
            emit (" AS " ++ kw ++ ")")
            pure [p, b]
      | _ => throwE (.arity fn 2 ops.length)
    else if fn = "EXTRACT" then
      match ops with
      | [a, b] => do
          let kw ← keywordF b
          emit ("EXTRACT(" ++ kw ++ " FROM ")
          let p ← exprM cfg fuel a
          emit ")"
          pure [p, b]
      | _ => throwE (.arity fn 2 ops.length)
    else if fn = "CASE" then do
      emit "CASE "
      emit caseClosureSource
      emitParam (JVal.str " ")
      emit " END"
      pure ops
    else do
      let kw ← keywordF (JVal.str fn)
      emit (kw ++ "(")
      let ps ← exprListM cfg fuel ops "," true
      emit ")"
      pure ps

/-- append(list, this.expr, sep) (lines 124-133): the separator is appended
to the current chunk before every element except the first, provided it is a
non-empty string. -/
def exprListM (cfg : Cfg) : Nat → List JVal → String → Bool → M (List JVal)
  | 0, _, _, _ => throwE .outOfFuel
  | _ + 1, [], _, _ => pure []
  | fuel + 1, x :: rest, sep, first => do
      if first = false ∧ sep ≠ "" then emit sep
      let p ← exprM cfg fuel x
      let ps ← exprListM cfg fuel rest sep false
      pure (p :: ps)

/-- The conjunctive (object) form of expr (lines 341-358): pairs joined with
AND; array values are rewritten with the column symbol spliced in as first
operand, nulls become IS NULL, regular expressions (bare or wrapped)
delegate to the pattern translator, everything else compiles as
column = value. -/
def exprObjM (cfg : Cfg) : Nat → List (String × JVal) → Bool → M (List (String × JVal))
  | 0, _, _ => throwE .outOfFuel
  | fuel + 1, kvs, first =>
    match kvs with
    | [] => pure []
    | (k, v) :: rest => do
        if first = false then emit " AND "
        let post ←
          match v with
          | .arr vs =>
              match vs with
              | [] => throwE (.firstElement (jsDisplay JVal.undef))
              | v0 :: vrest =>
                  match v0 with
                  | .str s => do
                      let posts ← exprArrM cfg fuel (jsToUpper s) (JVal.sym k :: vrest)
                      pure (JVal.arr (JVal.str s :: posts.tail))
                  | other => throwE (.firstElement (jsDisplay other))
          | .null => do
              emit (identF cfg k ++ " IS NULL")
              pure v
          | .rex src flags => do
              (regexpF cfg src flags false).appendF k false
              pure v
          | .varv p t =>
              match p with
              | .rex src flags => do
                  (regexpF cfg src flags false).appendF k true
                  pure (JVal.varv p t)
              | _ => do
                  emit (identF cfg k ++ "=")
                  valueM cfg fuel v false
                  pure v
          | _ => do
              emit (identF cfg k ++ "=")
              valueM cfg fuel v false
              pure v
        let posts ← exprObjM cfg fuel rest false
        pure ((k, post) :: posts)
end

/-- The chunk array of QueryParts recovered from the piece list: text pieces
extend the current chunk, every parameter slot closes the current chunk and
opens a new one (append, lines 124-146: params.push is always paired with
chunks.push).  The empty buffer is the single empty chunk the constructor
creates (line 112). -/
def chunksOf : List Piece → List String
  | [] => [""]
  | .text s :: ps =>
      match chunksOf ps with
      | c :: cs => (s ++ c) :: cs
      | [] => [s]
  | .param _ :: ps => "" :: chunksOf ps

/-- The params array of QueryParts recovered from the piece list. -/
def paramsOf (ps : List Piece) : List JVal :=
  ps.filterMap fun p =>
    match p with
    | .param v => some v
    | .text _ => none

/-- The chunk join of QueryParts.toString (lines 116-122): chunk i is
preceded by a dialect placeholder mark when i is positive. -/
def jsChunksJoin (mark : Nat → String) : Nat → List String → String
  | _, [] => ""
  | i, c :: cs =>
      (if i > 0 then mark i else "") ++ c ++ jsChunksJoin mark (i + 1) cs

/-- QueryParts.toString for the positional dialect: a question mark before
every chunk except the first. -/
def jsToStringMY (chunks : List String) : String :=
  jsChunksJoin (fun _ => "?") 0 chunks

/-- QueryParts.toString for the indexed dialect: chunk i is preceded by the
marker dollar-i. -/
def jsToStringPG (chunks : List String) : String :=
  jsChunksJoin (fun i => "$" ++ toString i) 0 chunks

/-- The final SQL text of a compiled piece list, per dialect. -/
def textOf (cfg : Cfg) (ps : List Piece) : String :=
  if isPostgresCfg cfg then jsToStringPG (chunksOf ps)
  else jsToStringMY (chunksOf ps)

/-- Direct rendering of a piece list in the positional dialect: every
parameter slot is one question mark. -/
def renderMY : List Piece → String
  | [] => ""
  | .text s :: ps => s ++ renderMY ps
  | .param _ :: ps => "?" ++ renderMY ps

/-- Direct rendering in the indexed dialect, numbering parameter slots
consecutively from k+1. -/
def renderPGAux (k : Nat) : List Piece → String
  | [] => ""
  | .text s :: ps => s ++ renderPGAux k ps
  | .param _ :: ps => "$" ++ toString (k + 1) ++ renderPGAux (k + 1) ps

/-- Splice an already-compiled piece list into the current buffer (the
subquery case of QueryParts.table, lines 371-375, which merges the chunk
arrays and concatenates the param arrays). -/
def emitPieces (q : List Piece) : M Unit := okM () q

/-- QueryParts.where (lines 403-408). -/
def whereM (cfg : Cfg) (fuel : Nat) (w : JVal) : M Unit :=
  if jsTruthy w then do
    let _ ← exprM cfg fuel w
    pure ()
  else pure ()

/-- A table source: a name or an embedded compiled subquery. -/
inductive TableSrc where
  | tname (s : String)
  | sub (q : List Piece)

/-- One entry of the table/join list: a bare string, or an object with
table, as, join and on fields (QueryParts.table, lines 363-386). -/
inductive TableEntry where
  | plain (s : String)
  | full (src : TableSrc) (asName : Option String) (joinKind : Option String)
      (onCond : Option JVal)

def tableEntryM (cfg : Cfg) (fuel : Nat) (t : TableEntry) (i : Nat) : M Unit :=
  match t with
  | .plain s => emit ((if i > 0 then "LEFT JOIN " else "") ++ identF cfg s)
  | .full src asName joinKind onCond => do
      if i > 0 then
        emit ((match joinKind with
               | some j => if j = "" then "LEFT" else j
               | none => "LEFT") ++ " JOIN ")
      match src with
      | .sub q => do
          emit "("
          emitPieces q
          emit ")"
      | .tname n => emit (identF cfg n)
      match asName with
      | some a => if a ≠ "" then emit (" AS " ++ identF cfg a) else pure ()
      | none => pure ()
      match onCond with
      | some c =>
          if jsTruthy c then do
            emit " ON "
            whereM cfg fuel c
          else pure ()
      | none => pure ()

def tableAux (cfg : Cfg) (fuel : Nat) : List TableEntry → Nat → M Unit
  | [], _ => pure ()
  | t :: rest, i => do
      if i > 0 then emit " "
      tableEntryM cfg fuel t i
      tableAux cfg fuel rest (i + 1)

/-- QueryParts.table (lines 363-386): entries joined with spaces. -/
def tableM (cfg : Cfg) (fuel : Nat) (ts : List TableEntry) : M Unit :=
  tableAux cfg fuel ts 0

/-- Identifier join with commas (the field lists of fields/rows/unique). -/
def identListM (cfg : Cfg) : List String → Bool → M Unit
  | [], _ => pure ()
  | f :: rest, first => do
      if first = false then emit ","
      emit (identF cfg f)
      identListM cfg rest false

/-- The fields option of SELECT: raw text, an array of column names, or a
mapping from output name to expression (true passing the name through). -/
inductive FieldsSpec where
  | raw (s : String)
  | names (fs : List String)
  | fmap (kvs : List (String × JVal))

def fieldsMapM (cfg : Cfg) (fuel : Nat) : List (String × JVal) → Bool → M Unit
  | [], _ => pure ()
  | (k, v) :: rest, first => do
      if first = false then emit ","
      match v with
      | JVal.bool true => emit (identF cfg k)
      | _ => do
          let _ ← exprM cfg fuel v
          emit (" AS " ++ identF cfg k)
      fieldsMapM cfg fuel rest false

/-- QueryParts.fields (lines 388-401). -/
def fieldsM (cfg : Cfg) (fuel : Nat) : FieldsSpec → M Unit
  | .raw s => emit s
  | .names fs => identListM cfg fs true
  | .fmap kvs => fieldsMapM cfg fuel kvs true

/-- Element of an exprs list: a column name or an expression
(QueryParts.exprs, lines 410-420). -/
inductive ExprsItem where
  | iname (s : String)
  | ie (e : JVal)

inductive ExprsSpec where
  | raw (s : String)
  | elist (xs : List ExprsItem)
  | single (e : JVal)

def exprsListM (cfg : Cfg) (fuel : Nat) : List ExprsItem → Bool → M Unit
  | [], _ => pure ()
  | x :: rest, first => do
      if first = false then emit ","
      match x with
      | .iname s => emit (identF cfg s)
      | .ie e => do
          let _ ← exprM cfg fuel e
          pure ()
      exprsListM cfg fuel rest false

def exprsM (cfg : Cfg) (fuel : Nat) : ExprsSpec → M Unit
  | .raw s => emit s
  | .elist xs => exprsListM cfg fuel xs true
  | .single e => do
      let _ ← exprM cfg fuel e
      pure ()

/-- JavaScript truthiness of an exprs option value. -/
def exprsTruthy : ExprsSpec → Bool
  | .raw s => s ≠ ""
  | .elist _ => true
  | .single e => jsTruthy e

/-- Element of an order list: a column name, or a pair of expression and
optional direction keyword (QueryParts.order, lines 422-432). -/
inductive OrderItem where
  | oname (s : String)
  | opair (e : JVal) (dir : Option JVal)

inductive OrderSpec where
  | raw (s : String)
  | olist (xs : List OrderItem)
  | osingle (e : JVal)

def orderListM (cfg : Cfg) (fuel : Nat) : List OrderItem → Bool → M Unit
  | [], _ => pure ()
  | x :: rest, first => do
      if first = false then emit ","
      match x with
      | .oname s => emit (identF cfg s)
      | .opair e dir => do
          let _ ← exprM cfg fuel e
          match dir with
          | some d =>
              if jsTruthy d then do
                let kw ← keywordF d
                emit (" " ++ kw)
              else emit ""
          | none => emit ""
      orderListM cfg fuel rest false

def orderM (cfg : Cfg) (fuel : Nat) : OrderSpec → M Unit
  | .raw s => emit s
  | .olist xs => orderListM cfg fuel xs true
  | .osingle e => do
      let _ ← exprM cfg fuel e
      pure ()

def orderTruthy : OrderSpec → Bool
  | .raw s => s ≠ ""
  | .olist _ => true
  | .osingle e => jsTruthy e

/-- Per-key transform entry for UPDATE (lines 447-459): false disables
wrapping, a string wraps as a typed parameter, a function rewrites the
value. -/
inductive UpdFieldT where
  | offK
  | typed (t : String)
  | fnK (f : JVal → String → List (String × JVal) → JVal)

/-- The transform option of UPDATE (lines 434-466). -/
inductive UpdTransform where
  | undefT
  | offAll
  | perKey (kvs : List (String × UpdFieldT))
  | fnT (f : JVal → String → List (String × JVal) → JVal)

inductive UpdatesSpec where
  | raw (s : String)
  | umap (kvs : List (String × JVal))

/-- Object.assign(\x7b\x7d, value, \x7btype\x7d) for a wrapper (line 453). -/
def withType (v : JVal) (ty : String) : JVal :=
  match v with
  | .varv p _ => .varv p (some ty)
  | other => other

def updatesValueM (cfg : Cfg) (fuel : Nat) (tr : UpdTransform) (allKvs : List (String × JVal))
    (k : String) (v : JVal) : M Unit :=
  match tr with
  | .fnT f => do
      let _ ← exprM cfg fuel (f v k allKvs)
      pure ()
  | .offAll => do
      let _ ← exprM cfg fuel v
      pure ()
  | .perKey l =>
      match l.lookup k with
      | some .offK => do
          let _ ← exprM cfg fuel v
          pure ()
      | some (.typed ty) =>
          if isVarJ v ∧ jsTruthy v then do
            let _ ← exprM cfg fuel (withType v ty)
            pure ()
          else do
            let _ ← exprM cfg fuel (.varv v (some ty))
            pure ()
      | some (.fnK f) => do
          let _ ← exprM cfg fuel (f v k allKvs)
          pure ()
      | none =>
          if isVarJ v ∧ jsTruthy v then do
            let _ ← exprM cfg fuel v
            pure ()
          else do
            let _ ← exprM cfg fuel (.varv v none)
            pure ()
  | .undefT =>
      if isVarJ v ∧ jsTruthy v then do
        let _ ← exprM cfg fuel v
        pure ()
      else do
        let _ ← exprM cfg fuel (.varv v none)
        pure ()

def updatesMapM (cfg : Cfg) (fuel : Nat) (tr : UpdTransform) (allKvs : List (String × JVal)) :
    List (String × JVal) → Bool → M Unit
  | [], _ => pure ()
  | (k, v) :: rest, first => do
      if first = false then emit ","
      emit (identF cfg k ++ "=")
      updatesValueM cfg fuel tr allKvs k v
      updatesMapM cfg fuel tr allKvs rest false

/-- QueryParts.updates (lines 434-467). -/
def updatesM (cfg : Cfg) (fuel : Nat) (u : UpdatesSpec) (tr : UpdTransform) : M Unit :=
  match u with
  | .raw s => emit s
  | .umap kvs => updatesMapM cfg fuel tr kvs kvs true

/-- A row object of INSERT. -/
def RowV : Type := List (String × JVal)

/-- The rows argument of INSERT before normalization (lines 469-481): a
count produces that many placeholder rows (Array(n) holes, modelled none);
a generator or generator function is already materialized as a list. -/
inductive RowsInput where
  | rcount (n : Nat)
  | rlist (rs : List RowV)
  | rsingle (r : RowV)

def normalizeRows : RowsInput → List (Option RowV)
  | .rcount n => List.replicate n none
  | .rlist rs => rs.map some
  | .rsingle r => [some r]

/-- Per-key transform entry for INSERT rows (lines 504-516). -/
inductive RowFieldT where
  | offK
  | typed (t : String)
  | fnK (f : JVal → Nat → String → Option RowV → List (Option RowV) → JVal)

/-- The transform option of INSERT (lines 496-521); the function form feeds
its result to value() rather than expr() (line 499). -/
inductive RowTransform where
  | undefT
  | offAll
  | perKey (kvs : List (String × RowFieldT))
  | fnT (f : JVal → Nat → String → Option RowV → List (Option RowV) → JVal)

/-- `row ? row[key] : null` (line 497). -/
def rowCell (row : Option RowV) (k : String) : JVal :=
  match row with
  | some r => (r.lookup k).getD .undef
  | none => .null

def rowsCellM (cfg : Cfg) (fuel : Nat) (tr : RowTransform) (allRows : List (Option RowV))
    (i : Nat) (row : Option RowV) (k : String) : M Unit :=
  let v := rowCell row k
  match tr with
  | .fnT f => valueM cfg fuel (f v i k row allRows) false
  | .offAll => do
      let _ ← exprM cfg fuel v
      pure ()
  | .perKey l =>
      match l.lookup k with
      | some .offK => do
          let _ ← exprM cfg fuel v
          pure ()
      | some (.typed ty) =>
          if isVarJ v ∧ jsTruthy v then do
            let _ ← exprM cfg fuel (withType v ty)
            pure ()
          else do
            let _ ← exprM cfg fuel (.varv v (some ty))
            pure ()
      | some (.fnK f) => do
          let _ ← exprM cfg fuel (f v i k row allRows)
          pure ()
      | none =>
          if isVarJ v ∧ jsTruthy v then do
            let _ ← exprM cfg fuel v
            pure ()
          else do
            let _ ← exprM cfg fuel (.varv v none)
            pure ()
  | .undefT =>
      if isVarJ v ∧ jsTruthy v then do
        let _ ← exprM cfg fuel v
        pure ()
      else do
        let _ ← exprM cfg fuel (.varv v none)
        pure ()

def rowsCellsM (cfg : Cfg) (fuel : Nat) (tr : RowTransform) (allRows : List (Option RowV))
    (i : Nat) (row : Option RowV) : List String → Bool → M Unit
  | [], _ => pure ()
  | k :: rest, first => do
      if first = false then emit ","
      rowsCellM cfg fuel tr allRows i row k
      rowsCellsM cfg fuel tr allRows i row rest false

def rowsLoopM (cfg : Cfg) (fuel : Nat) (tr : RowTransform) (allRows : List (Option RowV))
    (fields : List String) : List (Option RowV) → Nat → M Unit
  | [], _ => pure ()
  | row :: rest, i => do
      if i > 0 then emit ","
      emit "("
      rowsCellsM cfg fuel tr allRows i row fields true
      emit ")"
      rowsLoopM cfg fuel tr allRows fields rest (i + 1)

/-- QueryParts.rows (lines 469-526): returns the first row (null when the
row list is empty, reproduced here as none).  An empty row list substitutes
the zero-row fragment and contributes nothing else (lines 483-486); a
missing field list is taken from the first row, throwing the JavaScript
TypeError when that row is a hole (line 488). -/
def rowsM (cfg : Cfg) (fuel : Nat) (rows : RowsInput) (fields : Option (List String))
    (tr : RowTransform) : M (Option RowV) :=
  let rs := normalizeRows rows
  if rs.length = 0 then do
    emit "(SELECT NULL WHERE 1=0)"
    pure none
  else do
    let fs ←
      match fields with
      | some fs => okM fs ([] : List Piece)
      | none =>
          match rs.head? with
          | some (some r) => okM (r.map Prod.fst) ([] : List Piece)
          | _ => throwE .keysOfUndefined
    emit "("
    identListM cfg fs true
    emit ") VALUES "
    rowsLoopM cfg fuel tr rs fs rs 0
    pure (rs.headD none)

/-- The conflict option: false (ignore) or a conflict specification
(a raw string or a mapping from column to rule/expression). -/
inductive ConflictSpec where
  | rawC (s : String)
  | mapC (kvs : List (String × JVal))

inductive ConflictOpt where
  | ignoreC
  | spec (c : ConflictSpec)

/-- String(array) for the table list: the coercion performed when
Builder.insert passes the table array to conflict(), which calls ident on
it (line 535); elements are comma-joined, object entries display as
[object Object]. -/
def tableEntryToJsString : TableEntry → String
  | .plain s => s
  | .full _ _ _ _ => "[object Object]"

def tablesToJsString (ts : List TableEntry) : String :=
  joinSep "," (ts.map tableEntryToJsString)

def conflictPairM (cfg : Cfg) (fuel : Nat) (tableStr : String) (k : String) (v : JVal) : M Unit :=
  let field := identF cfg k
  let exclId := if isPostgresCfg cfg then "EXCLUDED." ++ field
                else "VALUES(" ++ field ++ ")"
  match v with
  | .rex src _ =>
      let rule := jsToLower src
      if rule = "update" then emit (field ++ "=" ++ exclId)
      else if rule = "fill" then
        emit (field ++ "=COALESCE(" ++ tableStr ++ "." ++ field ++ ", " ++ exclId ++ ")")
      else if rule = "inc" then
        emit (field ++ "=" ++ tableStr ++ "." ++ field ++ "+1")
      else if rule = "dec" then
        emit (field ++ "=" ++ tableStr ++ "." ++ field ++ "-1")
      else if rule = "add" then
        emit (field ++ "=" ++ tableStr ++ "." ++ field ++ "+" ++ exclId)
      else if rule = "sub" then
        emit (field ++ "=" ++ tableStr ++ "." ++ field ++ "-" ++ exclId)
      else if rule = "max" then
        emit (field ++ "=GREATEST(" ++ tableStr ++ "." ++ field ++ ", " ++ exclId ++ ")")
      else if rule = "min" then
        emit (field ++ "=LEAST(" ++ tableStr ++ "." ++ field ++ ", " ++ exclId ++ ")")
      else throwE (.unknownConflictRule src)
  | _ => do
      emit (field ++ "=")
      let _ ← exprM cfg fuel v
      pure ()

def conflictPairsM (cfg : Cfg) (fuel : Nat) (tableStr : String) :
    List (String × JVal) → Bool → M Unit
  | [], _ => pure ()
  | (k, v) :: rest, first => do
      if first = false then emit ","
      conflictPairM cfg fuel tableStr k v
      conflictPairsM cfg fuel tableStr rest false

/-- QueryParts.conflict (lines 528-556). -/
def conflictM (cfg : Cfg) (fuel : Nat) (c : ConflictSpec) (tables : List TableEntry) : M Unit :=
  match c with
  | .rawC s => emit s
  | .mapC kvs =>
      conflictPairsM cfg fuel (identF cfg (tablesToJsString tables)) kvs true

/-- The distinct option of SELECT: absent/falsy, bare true, or an exprs
specification for DISTINCT ON. -/
inductive DistinctSpec where
  | off
  | all
  | on (e : ExprsSpec)

structure SelectOpts where
  fields : FieldsSpec := .raw "*"
  distinct : DistinctSpec := .off
  groupBy : Option ExprsSpec := none
  having : Option JVal := none
  order : Option OrderSpec := none
  limit : Option JVal := none
  offset : Option JVal := none

/-- Builder.select (src/index.js lines 745-764).  The truthiness guards of
the source (`where && ...` and so on) are reproduced on each option. -/
def selectB (cfg : Cfg) (fuel : Nat) (tables : List TableEntry) (w : Option JVal)
    (o : SelectOpts) : M Unit := do
  emit "SELECT "
  match o.distinct with
  | .off => pure ()
  | .all => emit "DISTINCT "
  | .on e => do
      emit "DISTINCT "
      emit "ON ("
      exprsM cfg fuel e
      emit ") "
  fieldsM cfg fuel o.fields
  if tables.length ≠ 0 then do
    emit " FROM "
    tableM cfg fuel tables
  match w with
  | some wv =>
      if jsTruthy wv then do
        emit " WHERE "
        whereM cfg fuel wv
      else pure ()
  | none => pure ()
  match o.groupBy with
  | some g =>
      if exprsTruthy g then do
        emit " GROUP BY "
        exprsM cfg fuel g
      else pure ()
  | none => pure ()
  match o.having with
  | some h =>
      if jsTruthy h then do
        emit " HAVING "
        whereM cfg fuel h
      else pure ()
  | none => pure ()
  match o.order with
  | some ord =>
      if orderTruthy ord then do
        emit " ORDER BY "
        orderM cfg fuel ord
      else pure ()
  | none => pure ()
  match o.limit with
  | some l =>
      if jsTruthy l then do
        emit " LIMIT "
        valueM cfg fuel l false
      else pure ()
  | none => pure ()
  match o.offset with
  | some off =>
      if jsTruthy off then do
        emit " OFFSET "
        valueM cfg fuel off false
      else pure ()
  | none => pure ()

/-- Builder.update (lines 766-772). -/
def updateB (cfg : Cfg) (fuel : Nat) (tables : List TableEntry) (u : UpdatesSpec)
    (w : Option JVal) (tr : UpdTransform) : M Unit := do
  emit "UPDATE "
  tableM cfg fuel tables
  emit " SET "
  updatesM cfg fuel u tr
  match w with
  | some wv =>
      if jsTruthy wv then do
        emit " WHERE "
        whereM cfg fuel wv
      else pure ()
  | none => pure ()

/-- The returnId option: bare true (column id) or a column name. -/
inductive RId where
  | rTrue
  | rName (s : String)

/-- The unique option: a raw constraint string or an array of columns. -/
inductive UniqueSpec where
  | uStr (s : String)
  | uCols (cs : List String)

def uniqueTruthy : Option UniqueSpec → Bool
  | none => false
  | some (.uStr s) => s ≠ ""
  | some (.uCols _) => true

def conflictOptTruthy : Option ConflictOpt → Bool
  | some (.spec (.rawC s)) => s ≠ ""
  | some (.spec (.mapC _)) => true
  | _ => false

structure InsertOpts where
  fields : Option (List String) := none
  transform : RowTransform := .undefT
  unique : Option UniqueSpec := none
  conflict : Option ConflictOpt := none
  returnId : Option RId := none

/-- Builder.insert (lines 774-810): validates the unique/conflict pairing,
emits INSERT [IGNORE] INTO table, the rows, the dialect conflict clause and
RETURNING; yields the first row for withId. -/
def conflictIsUndefined : Option ConflictOpt → Bool
  | none => true
  | some _ => false

def conflictIsFalse : Option ConflictOpt → Bool
  | some .ignoreC => true
  | _ => false

def insertB (cfg : Cfg) (fuel : Nat) (tables : List TableEntry) (rows : RowsInput)
    (o : InsertOpts) : M (Option RowV) :=
  if uniqueTruthy o.unique ∧ conflictIsUndefined o.conflict then
    throwE .conflictRequired
  else if ¬ uniqueTruthy o.unique ∧ ¬ conflictIsUndefined o.conflict ∧ isPostgresCfg cfg then
    throwE .uniqueRequired
  else do
    emit "INSERT "
    if isMySQLCfg cfg ∧ conflictIsFalse o.conflict then
      emit "IGNORE "
    emit "INTO "
    tableM cfg fuel tables
    let firstRow ← rowsM cfg fuel rows o.fields o.transform
    let uniqueStr :=
      match o.unique with
      | some (.uCols cs) => joinSep "," (cs.map (identF cfg))
      | some (.uStr s) => s
      | none => ""
    if isMySQLCfg cfg then
      if conflictOptTruthy o.conflict then do
        emit " ON DUPLICATE KEY UPDATE "
        match o.conflict with
        | some (.spec c) => conflictM cfg fuel c tables
        | _ => pure ()
      else pure ()
    else if isPostgresCfg cfg then
      if uniqueStr ≠ "" then
        if conflictOptTruthy o.conflict then do
          emit (" ON CONFLICT (" ++ uniqueStr ++ ") DO UPDATE SET ")
          match o.conflict with
          | some (.spec c) => conflictM cfg fuel c tables
          | _ => pure ()
        else emit (" ON CONFLICT (" ++ uniqueStr ++ ") DO NOTHING")
      else pure ()
    else pure ()
    match o.returnId with
    | some .rTrue =>
        if isPostgresCfg cfg then emit (" RETURNING " ++ identF cfg "id")
        else pure ()
    | some (.rName s) =>
        if s ≠ "" ∧ isPostgresCfg cfg then emit (" RETURNING " ++ identF cfg s)
        else pure ()
    | none => pure ()
    pure firstRow

/-- Builder.delete (lines 812-817). -/
def deleteB (cfg : Cfg) (fuel : Nat) (tables : List TableEntry) (w : Option JVal) : M Unit := do
  emit "DELETE FROM "
  tableM cfg fuel tables
  match w with
  | some wv =>
      if jsTruthy wv then do
        emit " WHERE "
        whereM cfg fuel wv
      else pure ()
  | none => pure ()

/-- Extract the emitted pieces of a compile. -/
def runPieces {α : Type} (m : M α) : Except Err (List Piece) :=
  match m with
  | .error e => .error e
  | .ok (_, ps) => .ok ps

/-- The Query.text surface of a compile (QueryParts.toString). -/
def runText (cfg : Cfg) {α : Type} (m : M α) : Except Err String :=
  match m with
  | .error e => .error e
  | .ok (_, ps) => .ok (textOf cfg ps)

/-- The Query.params surface of a compile. -/
def runParams {α : Type} (m : M α) : Except Err (List JVal) :=
  match m with
  | .error e => .error e
  | .ok (_, ps) => .ok (paramsOf ps)

def pgCfg : Cfg := ⟨Flavor.postgres, true⟩

def myCfg : Cfg := ⟨Flavor.mysql, true⟩

/-- Prepend already-emitted pieces to a computation result (the normal form
of bind on a resolved left side). -/
def appendPre {α : Type} (ps : List Piece) (m : M α) : M α :=
  match m with
  | .error e => .error e
  | .ok (b, qs) => .ok (b, ps ++ qs)

@[simp]
theorem bind_throwE {α β : Type} (e : Err) (f : α → M β) :
    (throwE e >>= f) = throwE e := rfl

@[simp]
theorem bind_okM {α β : Type} (a : α) (ps : List Piece) (f : α → M β) :
    (okM a ps >>= f) = appendPre ps (f a) := rfl

@[simp]
theorem appendPre_okM {α : Type} (ps : List Piece) (b : α) (qs : List Piece) :
    appendPre ps (okM b qs) = okM b (ps ++ qs) := rfl

@[simp]
theorem appendPre_throwE {α : Type} (ps : List Piece) (e : Err) :
    appendPre ps (throwE e : M α) = throwE e := rfl

@[simp]
theorem appendPre_appendPre {α : Type} (ps qs : List Piece) (m : M α) :
    appendPre ps (appendPre qs m) = appendPre (ps ++ qs) m := by
  cases m with
  | error e => rfl
  | ok r => cases r; simp [appendPre]

@[simp]
theorem pure_eq_okM {α : Type} (a : α) : (pure a : M α) = okM a [] := rfl

@[simp]
theorem emit_eq_okM (s : String) : emit s = okM () [Piece.text s] := rfl

@[simp]
theorem emitParam_eq_okM (v : JVal) : emitParam v = okM () [Piece.param v] := rfl

@[simp]
theorem emitPieces_eq_okM (q : List Piece) : emitPieces q = okM () q := rfl

/-- The scalar values whose compilation by QueryParts.value is the same on
the conjunctive (object) path and on the operator (array) path of expr:
everything except null (rewritten to IS NULL on the object path only),
regular expressions (rewritten to pattern matches on the object path only),
arrays, objects, and wrappers whose payload is a regular expression, an
array or another wrapper or that carry a type tag. -/
def plainScalar : JVal → Bool
  | .undef => true
  | .bool _ => true
  | .num _ => true
  | .str _ => true
  | .sym _ => true
  | .varv p t =>
      (match p with
       | .null => true
       | .undef => true
       | .bool _ => true
       | .num _ => true
       | .str _ => true
       | .sym _ => true
       | _ => false) && t.isNone
  | _ => false

/-- The pieces QueryParts.value appends for a plain scalar (lines 213-254):
an inline literal for bare values, a parameter slot for a wrapper. -/
def scalarPieces (cfg : Cfg) : JVal → List Piece
  | .undef => [Piece.text "NULL"]
  | .bool b =>
      [Piece.text (if isPostgresCfg cfg then (if b then "'t'" else "'f'")
                   else (if b then "true" else "false"))]
  | .num n => [Piece.text (toString n)]
  | .str s => [Piece.text (escapeStringFor cfg s)]
  | .sym d => [Piece.text (identF cfg d)]
  | .varv p _ => [Piece.param p]
  | _ => []

/-- The characters of a SQL text with parentheses and spaces removed: the
comparison of the two condition forms is stated up to this cleanup. -/
def eraseParenSpace (s : String) : List Char :=
  s.toList.filter fun c => !(c = '(' || c = ')' || c = ' ')

/-- The number of parameter slots in a piece list. -/
def countParams (ps : List Piece) : Nat := (paramsOf ps).length

/-- The pattern builder as the claim's sentence describes it, transcribed
from the spec's words for comparison with the source's likePattern: a
percent sign is prepended exactly when the start anchor is absent and
appended exactly when the end anchor is absent, unconditionally on the
translated pattern's own shape. -/
def claimLikePattern (source : String) : String :=
  let p1 := likeXform source
  let p2 := if !strStartsWith "^" source then "%" ++ p1 else p1
  if !strEndsWith "$" source then p2 ++ "%" else p2

/-- A result row as returned by the execution collaborator. -/
def Row : Type := List (String × JVal)

/-- `row[k]`: a missing column reads as undefined. -/
def rowGet (r : Row) (k : String) : JVal :=
  ((r.lookup k).getD .undef)

/-- The row-shape specification of the result mapper (Query.mapFn,
src/index.js lines 584-612): a field name, a function, a nested array or
object of shapes, or no spec (the row itself).  The class-instantiation
branch of mapFn (lines 586-594) is not modelled; no claim depends on it. -/
inductive Shape where
  | dflt
  | field (s : String)
  | fnS (f : Row → Nat → List Row → JVal)
  | listS (xs : List Shape)
  | objS (kvs : List (String × Shape))

mutual
/-- Query.mapFn (lines 584-612). -/
def mapFn : Shape → Row → Nat → List Row → JVal
  | .fnS f, r, i, rows => f r i rows
  | .listS xs, r, i, rows => .arr (mapFnList xs r i rows)
  | .field s, r, _, _ => rowGet r s
  | .objS kvs, r, i, rows => .obj (mapFnPairs kvs r i rows)
  | .dflt, r, _, _ => .obj r
termination_by structural sh => sh

def mapFnList : List Shape → Row → Nat → List Row → List JVal
  | [], _, _, _ => []
  | x :: rest, r, i, rows => mapFn x r i rows :: mapFnList rest r i rows
termination_by structural l => l

def mapFnPairs : List (String × Shape) → Row → Nat → List Row → List (String × JVal)
  | [], _, _, _ => []
  | (k, x) :: rest, r, i, rows => (k, mapFn x r i rows) :: mapFnPairs rest r i rows
termination_by structural l => l
end

/-- The key specification of the keyed/grouped mapping operations: a column
name, a key function, or an array of column names. -/
inductive KeySpec where
  | col (c : String)
  | fnK (f : Row → Nat → List Row → JVal)
  | cols (cs : List String)

mutual
/-- Value equality used to model Map key lookup (JavaScript SameValueZero;
for the primitive keys these operations produce the comparison is plain
value equality, which this models; object identity is not modelled). -/
def jvalBeq : JVal → JVal → Bool
  | .null, .null => true
  | .undef, .undef => true
  | .bool a, .bool b => a == b
  | .num a, .num b => a == b
  | .str a, .str b => a == b
  | .sym a, .sym b => a == b
  | .rex s1 f1, .rex s2 f2 => s1 == s2 && f1 == f2
  | .varv p1 t1, .varv p2 t2 => jvalBeq p1 p2 && t1 == t2
  | .arr xs, .arr ys => jvalListBeq xs ys
  | .obj a, .obj b => jvalPairsBeq a b
  | _, _ => false
termination_by structural a => a

def jvalListBeq : List JVal → List JVal → Bool
  | [], [] => true
  | x :: xs, y :: ys => jvalBeq x y && jvalListBeq xs ys
  | _, _ => false
termination_by structural l => l

def jvalPairsBeq : List (String × JVal) → List (String × JVal) → Bool
  | [], [] => true
  | (k1, v1) :: xs, (k2, v2) :: ys => k1 == k2 && jvalBeq v1 v2 && jvalPairsBeq xs ys
  | _, _ => false
termination_by structural l => l
end

/-- Map.prototype.set: overwrite in place when the key exists, append
otherwise. -/
def mapSet (m : List (JVal × JVal)) (k v : JVal) : List (JVal × JVal) :=
  if m.any fun p => jvalBeq p.1 k then
    m.map fun p => if jvalBeq p.1 k then (p.1, v) else p
  else m ++ [(k, v)]

/-- The grouped variant: push onto the existing list or start a new group at
the end (preserving insertion order). -/
def mapPush (m : List (JVal × List JVal)) (k v : JVal) : List (JVal × List JVal) :=
  if m.any fun p => jvalBeq p.1 k then
    m.map fun p => if jvalBeq p.1 k then (p.1, p.2 ++ [v]) else p
  else m ++ [(k, [v])]

/-- Same for string-keyed plain objects. -/
def objSet (m : List (String × JVal)) (k : String) (v : JVal) : List (String × JVal) :=
  if m.any fun p => p.1 == k then
    m.map fun p => if p.1 == k then (p.1, v) else p
  else m ++ [(k, v)]

def objPush (m : List (String × List JVal)) (k : String) (v : JVal) :
    List (String × List JVal) :=
  if m.any fun p => p.1 == k then
    m.map fun p => if p.1 == k then (p.1, p.2 ++ [v]) else p
  else m ++ [(k, [v])]

/-- A runtime error of the result-mapping loops. -/
inductive MapErr where
  | referenceErrorRow
deriving DecidableEq, Repr

/-- The message of the JavaScript ReferenceError raised when the identifier
`row` is resolved in a scope with no such binding. -/
def MapErr.message : MapErr → String
  | .referenceErrorRow => "row is not defined"

/-- `key.map(k => row[k]).join(underscore)` as written in toObject (line
620), where row is in scope; null and undefined render empty in join. -/
def jsJoinKey (cs : List String) (r : Row) : String :=
  joinSep "_" (cs.map fun k =>
    match rowGet r k with
    | .null => ""
    | .undef => ""
    | v => jsDisplay v)

/-- Query.toMap (lines 636-654).  The function and single-column branches
follow the source; in the array-of-columns branch the source expression
`key.map(k => row[k]).join(underscore)` (line 646) reads the identifier
`row`, which is not bound in that scope (the loop variable is rows[i]), so
the first loop iteration raises a ReferenceError. -/
def toMapLoop (key : KeySpec) (value : Shape) (rows : List Row) :
    List Row → Nat → List (JVal × JVal) → Except MapErr (List (JVal × JVal))
  | [], _, acc => .ok acc
  | r :: rest, i, acc =>
      match key with
      | .fnK f => toMapLoop key value rows rest (i + 1)
          (mapSet acc (f r i rows) (mapFn value r i rows))
      | .cols _ => .error .referenceErrorRow
      | .col c => toMapLoop key value rows rest (i + 1)
          (mapSet acc (rowGet r c) (mapFn value r i rows))

def toMapF (rows : List Row) (key : KeySpec) (value : Shape) :
    Except MapErr (List (JVal × JVal)) :=
  toMapLoop key value rows rows 0 []

/-- Query.toMapArray (lines 656-668); the array-of-columns key expression
(line 661) has the same unbound `row` as toMap. -/
def toMapArrayLoop (key : KeySpec) (value : Shape) (rows : List Row) :
    List Row → Nat → List (JVal × List JVal) → Except MapErr (List (JVal × List JVal))
  | [], _, acc => .ok acc
  | r :: rest, i, acc =>
      match key with
      | .fnK f => toMapArrayLoop key value rows rest (i + 1)
          (mapPush acc (f r i rows) (mapFn value r i rows))
      | .cols _ => .error .referenceErrorRow
      | .col c => toMapArrayLoop key value rows rest (i + 1)
          (mapPush acc (rowGet r c) (mapFn value r i rows))

def toMapArrayF (rows : List Row) (key : KeySpec) (value : Shape) :
    Except MapErr (List (JVal × List JVal)) :=
  toMapArrayLoop key value rows rows 0 []

/-- Query.toObjectArray (lines 625-634); object property keys are coerced to
strings; the array-of-columns key expression (line 630) has the same
unbound `row`. -/
def toObjectArrayLoop (key : KeySpec) (value : Shape) (rows : List Row) :
    List Row → Nat → List (String × List JVal) → Except MapErr (List (String × List JVal))
  | [], _, acc => .ok acc
  | r :: rest, i, acc =>
      match key with
      | .fnK f => toObjectArrayLoop key value rows rest (i + 1)
          (objPush acc (jsDisplay (f r i rows)) (mapFn value r i rows))
      | .cols _ => .error .referenceErrorRow
      | .col c => toObjectArrayLoop key value rows rest (i + 1)
          (objPush acc (jsDisplay (rowGet r c)) (mapFn value r i rows))

def toObjectArrayF (rows : List Row) (key : KeySpec) (value : Shape) :
    Except MapErr (List (String × List JVal)) :=
  toObjectArrayLoop key value rows rows 0 []

/-- Query.toObject (lines 614-623): the one keyed mapper whose
array-of-columns branch correctly reads its own map callback parameter
(line 620), joining the row values at those columns with an underscore. -/
def toObjectLoop (key : KeySpec) (value : Shape) (rows : List Row) :
    List Row → Nat → List (String × JVal) → List (String × JVal)
  | [], _, acc => acc
  | r :: rest, i, acc =>
      match key with
      | .fnK f => toObjectLoop key value rows rest (i + 1)
          (objSet acc (jsDisplay (f r i rows)) (mapFn value r i rows))
      | .cols cs => toObjectLoop key value rows rest (i + 1)
          (objSet acc (jsJoinKey cs r) (mapFn value r i rows))
      | .col c => toObjectLoop key value rows rest (i + 1)
          (objSet acc (jsDisplay (rowGet r c)) (mapFn value r i rows))

def toObjectF (rows : List Row) (key : KeySpec) (value : Shape) :
    List (String × JVal) :=
  toObjectLoop key value rows rows 0 []

/-
Transaction scope model (SQL.begin, src/index.js lines 971-984).

The begin method acquires a dedicated connection, creates a scoped wrapper
`tx = new SQL(await this.$db.connect(), this.$config)`, and runs

  try: BEGIN; callback(tx); COMMIT
  catch err: ROLLBACK; throw err
  finally: tx.db.release()

The wrapper stores the connection in the field `$db` (line 879); `db` is not
a property of an SQL instance, so the property read `tx.db` falls through to
the Proxy get trap (lines 885-891), which returns a Tables handle for a
table named db.  Tables (lines 820-865) has no release method, so the call
`tx.db.release()` raises a TypeError inside the finally block, which
replaces the pending fulfillment or the pending error, and the driver
connection is never released.
-/

/-- Own fields of an SQL instance (assigned in the constructor, lines
879-884). -/
def sqlOwnProps : List String := ["$db", "$config", "$builder"]

/-- Methods of the SQL prototype (lines 874-985). -/
def sqlProtoProps : List String :=
  ["constructor", "values", "exec", "from", "join", "begin"]

/-- Inherited Function.prototype and Object.prototype members visible to the
in operator on an SQL instance. -/
def inheritedFnProps : List String :=
  ["length", "name", "apply", "call", "bind", "toString", "constructor",
   "hasOwnProperty", "isPrototypeOf", "propertyIsEnumerable",
   "toLocaleString", "valueOf"]

/-- `prop in target` for the Proxy get trap (line 887). -/
def sqlHasProp (p : String) : Bool :=
  (sqlOwnProps ++ sqlProtoProps ++ inheritedFnProps).contains p

/-- Own fields and methods of a Tables instance (lines 820-865). -/
def tablesProps : List String :=
  ["sql", "list", "constructor", "join", "toString", "selectAll",
   "selectOne", "select", "update", "insert", "delete",
   "hasOwnProperty", "isPrototypeOf", "propertyIsEnumerable",
   "toLocaleString", "valueOf"]

/-- The result of a property read through the SQL Proxy (lines 886-891): a
real member when the instance has the property, otherwise a fresh Tables
handle for a table of that name. -/
inductive ProxyGetRes where
  | member (name : String)
  | tablesHandle (tableName : String)
deriving DecidableEq, Repr

def sqlProxyGet (p : String) : ProxyGetRes :=
  if sqlHasProp p then .member p else .tablesHandle p

/-- Observable events of one begin(callback) invocation.  connectPool is the
acquisition of the dedicated connection; releaseConn is a successful
this-connection release() call reaching the driver. -/
inductive TxEvent where
  | connectPool
  | beginStmt
  | callbackRun
  | commitStmt
  | rollbackStmt
  | releaseConn
deriving DecidableEq, Repr

/-- The settlement of the promise returned by begin. -/
inductive TxOutcome where
  | fulfilled
  | rejectedCallbackErr (tag : Nat)
  | rejectedTypeError (msg : String)
deriving DecidableEq, Repr

/-- The finally block `tx.db.release()` (line 982): resolve `db` through the
proxy; a Tables handle has no release member, so calling it raises a
TypeError (which a finally block propagates in place of any pending result). -/
def txFinallyStep : Sum Unit String :=
  match sqlProxyGet "db" with
  | .member _ => .inl ()
  | .tablesHandle _ =>
      if tablesProps.contains "release" then .inl ()
      else .inr "tx.db.release is not a function"

/-- SQL.begin (lines 972-984) for a callback whose statements all succeed
against the driver and which either returns normally (none) or throws an
error identified by a tag (some tag). -/
def beginTx (cbFails : Option Nat) : List TxEvent × TxOutcome :=
  let tryPart : List TxEvent × TxOutcome :=
    match cbFails with
    | none =>
        ([.connectPool, .beginStmt, .callbackRun, .commitStmt], .fulfilled)
    | some tag =>
        ([.connectPool, .beginStmt, .callbackRun, .rollbackStmt],
         .rejectedCallbackErr tag)
  match txFinallyStep with
  | .inl () => (tryPart.1 ++ [.releaseConn], tryPart.2)
  | .inr msg => (tryPart.1, .rejectedTypeError msg)

theorem chunksOf_ne_nil (ps : List Piece) : chunksOf ps ≠ [] := by
  induction ps with
  | nil => simp [chunksOf]
  | cons p rest ih =>
      cases p with
      | text s =>
          simp only [chunksOf]
          cases h : chunksOf rest with
          | nil => exact absurd h ih
          | cons c cs => simp
      | param v => simp [chunksOf]

theorem chunksOf_cons_text (s : String) (ps : List Piece) :
    chunksOf (Piece.text s :: ps) = List.modifyHead (fun c => s ++ c) (chunksOf ps) := by
  simp only [chunksOf]
  cases h : chunksOf ps with
  | nil => exact absurd h (chunksOf_ne_nil ps)
  | cons c cs => simp [List.modifyHead]

/-- The length invariant: every parameter slot opens exactly one new chunk,
so the chunk count always exceeds the parameter count by one. -/
theorem chunksOf_length (ps : List Piece) :
    (chunksOf ps).length = (paramsOf ps).length + 1 := by
  induction ps with
  | nil => simp [chunksOf, paramsOf]
  | cons p rest ih =>
      cases p with
      | text s =>
          rw [chunksOf_cons_text]
          simpa [paramsOf, List.length_modifyHead] using ih
      | param v => simpa [chunksOf, paramsOf] using ih

theorem jsChunksJoinMY_renderMY (ps : List Piece) (i : Nat) (h : String) :
    jsChunksJoin (fun _ => "?") i (List.modifyHead (fun c => h ++ c) (chunksOf ps)) =
      (if i > 0 then "?" else "") ++ h ++ renderMY ps := by
  induction ps generalizing i h with
  | nil => simp [chunksOf, jsChunksJoin, renderMY, List.modifyHead]
  | cons p rest ih =>
      cases p with
      | text s =>
          rw [chunksOf_cons_text]
          have hmod : List.modifyHead (fun c => h ++ c)
              (List.modifyHead (fun c => s ++ c) (chunksOf rest)) =
              List.modifyHead (fun c => (h ++ s) ++ c) (chunksOf rest) := by
            cases hc : chunksOf rest with
            | nil => exact absurd hc (chunksOf_ne_nil rest)
            | cons c cs => simp [List.modifyHead, String.append_assoc]
          rw [hmod, ih]
          simp [renderMY, String.append_assoc]
      | param v =>
          simp only [chunksOf, List.modifyHead]
          simp only [jsChunksJoin]
          have := ih (i + 1) ""
          rw [show List.modifyHead (fun c => "" ++ c) (chunksOf rest) =
                chunksOf rest from ?_] at this
          · rw [this]
            simp [renderMY, String.append_assoc]
          · cases hc : chunksOf rest with
            | nil => exact absurd hc (chunksOf_ne_nil rest)
            | cons c cs => simp [List.modifyHead]

theorem jsChunksJoinPG_renderPG (ps : List Piece) (i : Nat) (h : String) :
    jsChunksJoin (fun k => "$" ++ toString k) i
        (List.modifyHead (fun c => h ++ c) (chunksOf ps)) =
      (if i > 0 then "$" ++ toString i else "") ++ h ++ renderPGAux i ps := by
  induction ps generalizing i h with
  | nil => simp [chunksOf, jsChunksJoin, renderPGAux, List.modifyHead]
  | cons p rest ih =>
      cases p with
      | text s =>
          rw [chunksOf_cons_text]
          have hmod : List.modifyHead (fun c => h ++ c)
              (List.modifyHead (fun c => s ++ c) (chunksOf rest)) =
              List.modifyHead (fun c => (h ++ s) ++ c) (chunksOf rest) := by
            cases hc : chunksOf rest with
            | nil => exact absurd hc (chunksOf_ne_nil rest)
            | cons c cs => simp [List.modifyHead, String.append_assoc]
          rw [hmod, ih]
          simp [renderPGAux, String.append_assoc]
      | param v =>
          simp only [chunksOf, List.modifyHead]
          simp only [jsChunksJoin]
          have := ih (i + 1) ""
          rw [show List.modifyHead (fun c => "" ++ c) (chunksOf rest) =
                chunksOf rest from ?_] at this
          · rw [this]
            simp [renderPGAux, String.append_assoc]
          · cases hc : chunksOf rest with
            | nil => exact absurd hc (chunksOf_ne_nil rest)
            | cons c cs => simp [List.modifyHead]

/-- QueryParts.toString for the positional dialect renders exactly one
question mark per parameter slot, at the slot position. -/
theorem jsToStringMY_renderMY (ps : List Piece) :
    jsToStringMY (chunksOf ps) = renderMY ps := by
  have := jsChunksJoinMY_renderMY ps 0 ""
  rw [show List.modifyHead (fun c => "" ++ c) (chunksOf ps) = chunksOf ps from ?_] at this
  · simpa [jsToStringMY] using this
  · cases hc : chunksOf ps with
    | nil => exact absurd hc (chunksOf_ne_nil ps)
    | cons c cs => simp [List.modifyHead]

/-- QueryParts.toString for the indexed dialect renders the k-th parameter
slot, in text order, as the marker dollar-k. -/
theorem jsToStringPG_renderPG (ps : List Piece) :
    jsToStringPG (chunksOf ps) = renderPGAux 0 ps := by
  have := jsChunksJoinPG_renderPG ps 0 ""
  rw [show List.modifyHead (fun c => "" ++ c) (chunksOf ps) = chunksOf ps from ?_] at this
  · simpa [jsToStringPG] using this
  · cases hc : chunksOf ps with
    | nil => exact absurd hc (chunksOf_ne_nil ps)
    | cons c cs => simp [List.modifyHead]

def countChar (c : Char) (s : String) : Nat := s.toList.count c

/-- When no emitted text fragment contains a question mark, the positional
rendering holds exactly one question mark per parameter. -/
theorem countChar_renderMY (ps : List Piece)
    (hcl : ∀ s, Piece.text s ∈ ps → '?' ∉ s.toList) :
    countChar '?' (renderMY ps) = (paramsOf ps).length := by
  induction ps with
  | nil => simp [renderMY, countChar, paramsOf]
  | cons p rest ih =>
      have ihr := ih fun s hs => hcl s (List.mem_cons_of_mem _ hs)
      cases p with
      | text s =>
          have hs0 : s.data.count '?' = 0 :=
            List.count_eq_zero.mpr (hcl s (List.mem_cons_self _ _))
          simp only [countChar, String.toList] at ihr ⊢
          simp only [renderMY, paramsOf, List.filterMap_cons, String.data_append,
            List.count_append, hs0]
          simpa [paramsOf] using ihr
      | param v =>
          have h1 : (("?" : String)).data.count '?' = 1 := by decide
          simp only [countChar, String.toList] at ihr ⊢
          simp only [renderMY, paramsOf, List.filterMap_cons, String.data_append,
            List.count_append, h1, List.length_cons]
          simp only [paramsOf] at ihr
          omega

def isArrJ : JVal → Bool
  | .arr _ => true
  | _ => false

/-- A scalar parameter wrapper (any non-array payload, including a typed or
unixtime one) emits exactly one parameter slot and exactly one new chunk
boundary. -/
theorem valueM_wrapper_one_param (cfg : Cfg) (fuel : Nat) (v : JVal)
    (t : Option String) (hv : ¬ isArrJ v = true) :
    ∃ ps, valueM cfg (fuel + 1) (JVal.varv v t) false = okM () ps ∧
      (paramsOf ps).length = 1 ∧ (chunksOf ps).length = 2 := by
  cases v <;> simp only [isArrJ, not_true_eq_false] at hv <;>
    simp only [valueM, isVarJ, jvalPayload, jvalType, Bool.or_false,
      Bool.false_eq_true, if_false, if_true, ite_false, ite_true,
      emit_eq_okM, emitParam_eq_okM, bind_okM, appendPre_okM,
      List.nil_append, List.append_nil, List.cons_append] <;>
    (repeat' split) <;>
    exact ⟨_, rfl, by simp [paramsOf, chunksOf], by simp [paramsOf, chunksOf]⟩

/-- Appending to the empty prefix changes nothing. -/
theorem appendPre_nil {α : Type} (m : M α) : appendPre [] m = m := by
  cases m with
  | error e => rfl
  | ok v => cases v; simp [appendPre]

/-- A buffered prefix commutes with a following bind. -/
theorem M_bind_appendPre {α β : Type} (ps : List Piece) (x : M α) (f : α → M β) :
    (appendPre ps x) >>= f = appendPre ps (x >>= f) := by
  cases x with
  | error e => rfl
  | ok v =>
      obtain ⟨a, qs⟩ := v
      show ((okM a (ps ++ qs) : M α) >>= f) = appendPre ps ((okM a qs : M α) >>= f)
      rw [bind_okM, bind_okM, appendPre_appendPre]

/-- Associativity of the writer bind. -/
theorem M_bind_assoc {α β γ : Type} (x : M α) (f : α → M β) (g : β → M γ) :
    (x >>= f) >>= g = x >>= fun a => f a >>= g := by
  cases x with
  | error e => rfl
  | ok v =>
      obtain ⟨a, ps⟩ := v
      show ((okM a ps : M α) >>= f) >>= g = ((okM a ps : M α) >>= fun a => f a >>= g)
      rw [bind_okM, bind_okM, M_bind_appendPre]

theorem mem_of_containsStr {l : List String} {a : String} (h : l.contains a = true) :
    a ∈ l := by simpa using h

/-- Every strictly-binary operator is in the combined operator list. -/
theorem binop_operator {fn : String} (h : BinaryOperators.contains fn = true) :
    Operators.contains fn = true := by
  have hm : fn ∈ Operators := List.mem_append_left _ (mem_of_containsStr h)
  simpa using hm

/-- The binary-operator names are their own uppercase forms, so the
uppercasing performed by expr before dispatch leaves them unchanged. -/
theorem jsToUpper_binop {fn : String} (h : BinaryOperators.contains fn = true) :
    jsToUpper fn = fn := by
  have hall : ∀ x ∈ BinaryOperators, jsToUpper x = x := by decide
  exact hall fn (mem_of_containsStr h)

/-- The operator separator built by expr is never the empty string, so the
separator really is emitted between consecutive operands. -/
theorem sep_spaces_ne_empty (fn : String) : (" " ++ fn ++ " ") ≠ "" := by
  intro h
  have h2 := congrArg String.length h
  rw [String.length_append, String.length_append] at h2
  have h1 : String.length " " = 1 := by decide
  have h0 : String.length "" = 0 := by decide
  rw [h1, h0] at h2
  omega

/-- Two operands never take the unary branch of the array dispatch. -/
theorem exprArrM_pair (cfg : Cfg) (f : Nat) (fn : String) (a b : JVal) :
    exprArrM cfg (f + 1) fn [a, b] = exprArrMain cfg f fn [a, b] := rfl

/-- One operand under a non-unary operator falls through to the main
dispatch. -/
theorem exprArrM_not_unary (cfg : Cfg) (f : Nat) (fn : String) (a : JVal)
    (hu : ¬(MaybeUnaryOperators.contains fn = true)) :
    exprArrM cfg (f + 1) fn [a] = exprArrMain cfg f fn [a] := by
  show (if MaybeUnaryOperators.contains fn = true then
          (do emit (fn ++ " ")
              let p ← exprM cfg f a
              pure [p])
        else exprArrMain cfg f fn [a]) = exprArrMain cfg f fn [a]
  exact if_neg hu

/-- A strictly-binary operator given an operand count other than two raises
the arity error (line 273). -/
theorem exprArrMain_binary_arity (cfg : Cfg) (f : Nat) (fn : String) (ops : List JVal)
    (hOp : Operators.contains fn = true) (hfn : BinaryOperators.contains fn = true)
    (hlen : ops.length ≠ 2) :
    exprArrMain cfg (f + 1) fn ops = throwE (Err.arity fn 2 ops.length) := by
  rcases ops with _ | ⟨a, _ | ⟨b, _ | ⟨c, _ | ⟨d, rest2⟩⟩⟩⟩
  · rw [exprArrMain.eq_5 cfg fn [] f (by intro x y hh; simp at hh)
      (by intro x hh; simp at hh) (by intro x y z hh; simp at hh)]
    rw [if_pos hOp, if_pos ⟨hfn, hlen⟩]
  · rw [exprArrMain.eq_3, if_pos hOp, if_pos ⟨hfn, hlen⟩]
  · exact absurd rfl hlen
  · rw [exprArrMain.eq_4, if_pos hOp, if_pos ⟨hfn, hlen⟩]
  · rw [exprArrMain.eq_5 cfg fn (a :: b :: c :: d :: rest2) f (by intro x y hh; simp at hh)
      (by intro x hh; simp at hh) (by intro x y z hh; simp at hh)]
    rw [if_pos hOp, if_pos ⟨hfn, hlen⟩]

/-- A known operator over exactly two operands parenthesizes the joined
operand list (lines 275-277). -/
theorem exprArrMain_binary_ok (cfg : Cfg) (f : Nat) (fn : String) (a b : JVal)
    (hOp : Operators.contains fn = true) :
    exprArrMain cfg (f + 1) fn [a, b] =
      (do emit "("
          let ps ← exprListM cfg f [a, b] (" " ++ fn ++ " ") true
          emit ")"
          pure ps) := by
  rw [exprArrMain.eq_2, if_pos hOp,
    if_neg (show ¬(BinaryOperators.contains fn = true ∧ [a, b].length ≠ 2) by simp)]

/-- append over a one-element tail: the separator precedes the element. -/
theorem exprListM_single (cfg : Cfg) (f : Nat) (b : JVal) (sep : String)
    (hsep : sep ≠ "") :
    exprListM cfg (f + 2) [b] sep false =
      (do emit sep
          let q ← exprM cfg (f + 1) b
          pure [q]) := by
  rw [exprListM.eq_3, if_pos ⟨rfl, hsep⟩]
  simp only [exprListM.eq_2]
  simp [M_bind_assoc, M_bind_appendPre, appendPre_nil]

/-- append over a two-element list: no separator before the first element,
one before the second. -/
theorem exprListM_pair (cfg : Cfg) (f : Nat) (a b : JVal) (sep : String)
    (hsep : sep ≠ "") :
    exprListM cfg (f + 3) [a, b] sep true =
      (do let p ← exprM cfg (f + 2) a
          emit sep
          let q ← exprM cfg (f + 1) b
          pure [p, q]) := by
  rw [exprListM.eq_3, if_neg (show ¬(true = false ∧ sep ≠ "") by simp)]
  simp only [exprListM_single cfg f b sep hsep]
  simp [M_bind_assoc, M_bind_appendPre, appendPre_nil]

/-- QueryParts.value on a plain scalar appends exactly its scalar pieces,
independently of the recursion bound. -/
theorem valueM_plain (cfg : Cfg) (x : JVal) (hx : plainScalar x = true) (f : Nat) :
    valueM cfg (f + 1) x false = okM () (scalarPieces cfg x) := by
  cases x with
  | undef => rfl
  | bool b => rfl
  | num n => rfl
  | str s => rfl
  | sym d => rfl
  | varv p t =>
      cases t with
      | some ty => simp [plainScalar] at hx
      | none => cases p <;> simp [plainScalar] at hx <;> rfl
  | null => simp [plainScalar] at hx
  | rex s2 f2 => simp [plainScalar] at hx
  | arr xs => simp [plainScalar] at hx
  | obj kvs => simp [plainScalar] at hx

/-- expr on a plain scalar: the value compiles through QueryParts.value and
is returned unchanged. -/
theorem exprM_plain (cfg : Cfg) (f : Nat) (x : JVal) (hx : plainScalar x = true) :
    exprM cfg (f + 2) x = okM x (scalarPieces cfg x) := by
  rw [exprM.eq_6 cfg x (f + 1)
    (fun xs hh => by subst hh; simp [plainScalar] at hx)
    (fun kvs hh => by subst hh; simp [plainScalar] at hx)]
  simp only [valueM_plain cfg x hx f, pure_eq_okM, bind_okM, appendPre_okM,
    List.append_nil]

/-- expr on a two-operand known-operator array: the operands compile in
order inside parentheses, joined by the operator, and the compiled array
drops the operator name. -/
theorem exprM_op_pair (cfg : Cfg) (f : Nat) (fn : String) (a b : JVal)
    (hOp : Operators.contains fn = true) (hup : jsToUpper fn = fn)
    (ra rb : JVal) (pa qb : List Piece)
    (ha : exprM cfg (f + 4) a = Except.ok (ra, pa))
    (hb : exprM cfg (f + 3) b = Except.ok (rb, qb)) :
    exprM cfg (f + 8) (JVal.arr [JVal.str fn, a, b]) =
      Except.ok (JVal.arr [ra, rb],
        Piece.text "(" :: pa ++ Piece.text (" " ++ fn ++ " ") :: qb ++
          [Piece.text ")"]) := by
  rw [exprM.eq_3, hup]
  have ha2 : exprM cfg (f + 4) a = okM ra pa := ha
  have hb2 : exprM cfg (f + 3) b = okM rb qb := hb
  simp only [exprArrM_pair, exprArrMain_binary_ok cfg (f + 5) fn a b hOp,
    exprListM_pair cfg (f + 2) a b (" " ++ fn ++ " ") (sep_spaces_ne_empty fn)]
  simp only [emit_eq_okM, pure_eq_okM, bind_okM, M_bind_assoc, M_bind_appendPre,
    appendPre_okM, appendPre_nil, ha2, hb2]
  simp [okM, List.append_assoc]

/-- One step of the conjunctive form on a plain-scalar value (lines
341-358): the separator when not first, then column=, then the value's
scalar pieces, and the value is kept unchanged in the post object. -/
theorem exprObjM_plain_cons (cfg : Cfg) (f : Nat) (k : String) (v : JVal)
    (rest : List (String × JVal)) (first : Bool) (hv : plainScalar v = true) :
    exprObjM cfg (f + 2) ((k, v) :: rest) first =
      ((if first = false then emit " AND " else pure ()) >>= fun _ =>
        okM () (Piece.text (identF cfg k ++ "=") :: scalarPieces cfg v) >>= fun _ =>
        exprObjM cfg (f + 1) rest false >>= fun posts =>
        pure ((k, v) :: posts)) := by
  rw [exprObjM.eq_3]
  cases v with
  | null => simp [plainScalar] at hv
  | rex s2 f2 => simp [plainScalar] at hv
  | arr xs => simp [plainScalar] at hv
  | obj kvs => simp [plainScalar] at hv
  | varv p t =>
      cases t with
      | some ty => simp [plainScalar] at hv
      | none =>
          have hval := valueM_plain cfg (JVal.varv p none) hv f
          cases p <;> (try simp [plainScalar] at hv) <;> cases first <;>
            simp [hval, scalarPieces, M_bind_assoc, M_bind_appendPre, appendPre_nil]
  | undef =>
      have hval := valueM_plain cfg JVal.undef hv f
      cases first <;>
        simp [hval, scalarPieces, M_bind_assoc, M_bind_appendPre, appendPre_nil]
  | bool b =>
      have hval := valueM_plain cfg (JVal.bool b) hv f
      cases first <;>
        simp [hval, scalarPieces, M_bind_assoc, M_bind_appendPre, appendPre_nil]
  | num n =>
      have hval := valueM_plain cfg (JVal.num n) hv f
      cases first <;>
        simp [hval, scalarPieces, M_bind_assoc, M_bind_appendPre, appendPre_nil]
  | str s =>
      have hval := valueM_plain cfg (JVal.str s) hv f
      cases first <;>
        simp [hval, scalarPieces, M_bind_assoc, M_bind_appendPre, appendPre_nil]
  | sym d =>
      have hval := valueM_plain cfg (JVal.sym d) hv f
      cases first <;>
        simp [hval, scalarPieces, M_bind_assoc, M_bind_appendPre, appendPre_nil]

/-- The conjunctive form over two plain-scalar pairs compiles to
column=value AND column=value, with each value's pieces spliced in. -/
theorem exprObjM_plain_pair (cfg : Cfg) (f : Nat) (a b : String) (x y : JVal)
    (hx : plainScalar x = true) (hy : plainScalar y = true) :
    exprObjM cfg (f + 3) [(a, x), (b, y)] true =
      okM [(a, x), (b, y)]
        (Piece.text (identF cfg a ++ "=") :: scalarPieces cfg x ++
         Piece.text " AND " :: Piece.text (identF cfg b ++ "=") ::
           scalarPieces cfg y) := by
  rw [exprObjM_plain_cons cfg (f + 1) a x [(b, y)] true hx]
  simp only [exprObjM_plain_cons cfg f b y [] false hy]
  simp only [exprObjM.eq_2]
  simp only [pure_eq_okM, emit_eq_okM, bind_okM, M_bind_assoc, M_bind_appendPre,
    appendPre_okM, appendPre_nil, if_neg, reduceIte]
  simp [okM, List.append_assoc]
  rfl

/-- The positional render is append-homomorphic. -/
theorem renderMY_append (ps qs : List Piece) :
    renderMY (ps ++ qs) = renderMY ps ++ renderMY qs := by
  induction ps with
  | nil => simp [renderMY]
  | cons p ps ih => cases p <;> simp [renderMY, ih, String.append_assoc]

theorem countParams_cons_text (s : String) (ps : List Piece) :
    countParams (Piece.text s :: ps) = countParams ps := rfl

theorem countParams_cons_param (v : JVal) (ps : List Piece) :
    countParams (Piece.param v :: ps) = countParams ps + 1 := rfl

/-- The indexed render of an appended list: the tail renders with its
counter advanced by the head's parameter count. -/
theorem renderPGAux_append (ps qs : List Piece) : ∀ k : Nat,
    renderPGAux k (ps ++ qs) =
      renderPGAux k ps ++ renderPGAux (k + countParams ps) qs := by
  induction ps with
  | nil => intro k; simp [renderPGAux, countParams, paramsOf]
  | cons p ps ih =>
      intro k
      cases p with
      | text s =>
          simp [renderPGAux, ih k, countParams_cons_text, String.append_assoc]
      | param v =>
          have hn : k + 1 + countParams ps = k + (countParams ps + 1) := by omega
          simp [renderPGAux, ih (k + 1), countParams_cons_param, hn,
            String.append_assoc]

/-- The paren-and-space cleanup distributes over string append. -/
theorem eraseParenSpace_append (s t : String) :
    eraseParenSpace (s ++ t) = eraseParenSpace s ++ eraseParenSpace t := by
  simp [eraseParenSpace, String.toList, String.data_append, List.filter_append]

theorem textOf_my (cfg : Cfg) (ps : List Piece) (h : isPostgresCfg cfg = false) :
    textOf cfg ps = renderMY ps := by
  simp [textOf, h, jsToStringMY_renderMY]

theorem textOf_pg (cfg : Cfg) (ps : List Piece) (h : isPostgresCfg cfg = true) :
    textOf cfg ps = renderPGAux 0 ps := by
  simp [textOf, h, jsToStringPG_renderPG]

/-- The final text of a buffer holding exactly two text pieces. -/
theorem textOf_two_texts (cfg : Cfg) (s t : String) :
    textOf cfg [Piece.text s, Piece.text t] = s ++ t := by
  rcases cfg with ⟨fl, cc⟩
  cases fl <;>
    simp [textOf, isPostgresCfg, chunksOf, jsToStringMY, jsToStringPG,
      jsChunksJoin, ← String.append_assoc]

/-- C1 (amended): in every compiled buffer the chunk count exceeds the
parameter count by one, the emitted text of QueryParts.toString places one
placeholder marker at each parameter slot in left-to-right order (`?` for
the positional dialect; the k-th slot in text order is numbered `$k` for the
indexed dialect, so the k-th placeholder binds the k-th parameter-vector
entry), a scalar Parameter wrapper contributes exactly one slot and one
vector entry, and — provided no emitted literal text itself contains the
placeholder character — the k-th `?` character of the positional text is the
k-th slot.  The claim as frozen identifies placeholders with `?` characters
unconditionally; that reading is refuted by C1_counterexample_literal. -/
theorem C1_placeholder_correspondence (cfg : Cfg) :
    (∀ ps : List Piece,
        (chunksOf ps).length = (paramsOf ps).length + 1 ∧
        jsToStringMY (chunksOf ps) = renderMY ps ∧
        jsToStringPG (chunksOf ps) = renderPGAux 0 ps ∧
        ((∀ s, Piece.text s ∈ ps → '?' ∉ s.toList) →
          countChar '?' (jsToStringMY (chunksOf ps)) = (paramsOf ps).length)) ∧
    (∀ fuel v t, ¬ isArrJ v = true →
        ∃ ps, valueM cfg (fuel + 1) (JVal.varv v t) false = okM () ps ∧
          (paramsOf ps).length = 1 ∧ (chunksOf ps).length = 2) ∧
    (∀ fuel tables w o ps, selectB cfg fuel tables w o = okM () ps →
        (chunksOf ps).length = (paramsOf ps).length + 1) := by
  refine ⟨fun ps => ⟨chunksOf_length ps, jsToStringMY_renderMY ps,
      jsToStringPG_renderPG ps, fun h => ?_⟩,
    fun fuel v t hv => valueM_wrapper_one_param cfg fuel v t hv,
    fun _ _ _ _ ps _ => chunksOf_length ps⟩
  rw [jsToStringMY_renderMY ps]
  exact countChar_renderMY ps h

theorem C1_placeholder_correspondence_witness :
    countChar '?'
      (jsToStringMY (chunksOf [Piece.text "SELECT 1 WHERE a=", Piece.param (JVal.num 5)])) = 1 ∧
    (∃ ps, valueM myCfg 1 (JVal.varv (JVal.num 5) none) false = okM () ps ∧
      (paramsOf ps).length = 1 ∧ (chunksOf ps).length = 2) := by
  constructor
  · have h := (C1_placeholder_correspondence myCfg).1
      [Piece.text "SELECT 1 WHERE a=", Piece.param (JVal.num 5)]
    have hcl : ∀ s, Piece.text s ∈
        [Piece.text "SELECT 1 WHERE a=", Piece.param (JVal.num 5)] → '?' ∉ s.toList := by
      intro s hs
      simp only [List.mem_cons, List.mem_singleton] at hs
      rcases hs with hs | hs
      · cases hs
        decide
      · simp at hs
    simpa using h.2.2.2 hcl
  · exact (C1_placeholder_correspondence myCfg).2.1 0 (JVal.num 5) none (by decide)

/-- C1 counterexample: a builder-compiled statement in the positional
dialect whose text holds two `?` characters but whose parameter vector has
one entry — the first `?` in text order sits inside an inline-escaped string
literal, so the i-th `?` is not the i-th placeholder. -/
theorem C1_counterexample_literal :
    runText myCfg (selectB myCfg 100 [.plain "t"]
      (some (.obj [("name", .str "x?")])) { limit := some (.varv (.num 5) none) }) =
      Except.ok "SELECT * FROM `t` WHERE `name`='x?' LIMIT ?" ∧
    runParams (selectB myCfg 100 [.plain "t"]
      (some (.obj [("name", .str "x?")])) { limit := some (.varv (.num 5) none) }) =
      Except.ok [JVal.num 5] ∧
    countChar '?' "SELECT * FROM `t` WHERE `name`='x?' LIMIT ?" = 2 := by
  exact ⟨rfl, rfl, by decide⟩

/-- C2: the code contradicts the specified transaction contract.  For a
callback that throws (tag 7) after successful statements, a ROLLBACK is
issued, but the finally block evaluates tx.db.release(): the connection
field is named dollar-db, so the proxy returns a Tables handle with no
release method, the call raises a TypeError that replaces the original
error, and the dedicated connection is never released (released-count 0,
not 1).  On the success path a COMMIT is issued yet the returned promise
still rejects with the TypeError instead of fulfilling. -/
theorem C2_begin_release_bug :
    ((beginTx (some 7)).1.count TxEvent.rollbackStmt = 1 ∧
     (beginTx (some 7)).1.count TxEvent.releaseConn = 0 ∧
     (beginTx (some 7)).2 = TxOutcome.rejectedTypeError "tx.db.release is not a function" ∧
     (beginTx (some 7)).2 ≠ TxOutcome.rejectedCallbackErr 7) ∧
    ((beginTx none).1.count TxEvent.commitStmt = 1 ∧
     (beginTx none).1.count TxEvent.releaseConn = 0 ∧
     (beginTx none).2 ≠ TxOutcome.fulfilled) ∧
    sqlHasProp "db" = false ∧
    sqlHasProp "$db" = true ∧
    tablesProps.contains "release" = false := by
  decide

/-- C4: the indexed-dialect insert scenario compiles to exactly the claimed
text and parameter vector. -/
theorem C4_insert_conflict_scenario :
    runText pgCfg (insertB pgCfg 100 [.plain "users"]
      (.rsingle [("id", .num 100), ("name", .str "John")])
      { unique := some (.uCols ["id"]),
        conflict := some (.spec (.mapC
          [("id", .rex "inc" ""), ("name", .varv (.str "Paul") none)])) }) =
      Except.ok "INSERT INTO \"users\"(\"id\",\"name\") VALUES ($1,$2) ON CONFLICT (\"id\") DO UPDATE SET \"id\"=\"users\".\"id\"+1,\"name\"=$3" ∧
    runParams (insertB pgCfg 100 [.plain "users"]
      (.rsingle [("id", .num 100), ("name", .str "John")])
      { unique := some (.uCols ["id"]),
        conflict := some (.spec (.mapC
          [("id", .rex "inc" ""), ("name", .varv (.str "Paul") none)])) }) =
      Except.ok [JVal.num 100, JVal.str "John", JVal.str "Paul"] :=
  ⟨rfl, rfl⟩

/-- C5: the code contradicts the claim.  With an array-of-columns key and a
non-empty row list, toMap, toMapArray and toObjectArray all raise a
ReferenceError — their key expression reads the unbound identifier `row`
(src/index.js lines 646, 661, 630) — instead of keying by the row values
joined with an underscore.  The sibling toObject (line 620) implements the
claimed behavior, keying the row by "1_2" here, which together with the spec
fixes the intent. -/
theorem C5_array_key_reference_error :
    toMapF [[("a", .num 1), ("b", .num 2)]] (.cols ["a", "b"]) .dflt =
      .error .referenceErrorRow ∧
    toMapArrayF [[("a", .num 1), ("b", .num 2)]] (.cols ["a", "b"]) .dflt =
      .error .referenceErrorRow ∧
    toObjectArrayF [[("a", .num 1), ("b", .num 2)]] (.cols ["a", "b"]) .dflt =
      .error .referenceErrorRow ∧
    toObjectF [[("a", .num 1), ("b", .num 2)]] (.cols ["a", "b"]) .dflt =
      [("1_2", .obj [("a", .num 1), ("b", .num 2)])] ∧
    MapErr.message .referenceErrorRow = "row is not defined" :=
  ⟨rfl, rfl, rfl, rfl, rfl⟩

/-- C7: inserting an empty row array substitutes the zero-row-safe fragment
(SELECT NULL WHERE 1=0) for the column list and VALUES clause, in either
dialect, with an empty parameter vector. -/
theorem C7_empty_rows_fragment (cfg : Cfg) (fuel : Nat) (t : String) :
    runText cfg (insertB cfg fuel [.plain t] (.rlist []) {}) =
      Except.ok ("INSERT INTO " ++ identF cfg t ++ "(SELECT NULL WHERE 1=0)") ∧
    runParams (insertB cfg fuel [.plain t] (.rlist []) {}) = Except.ok [] := by
  have hins : insertB cfg fuel [.plain t] (.rlist []) {} =
      okM none [Piece.text "INSERT ", Piece.text "INTO ",
        Piece.text (identF cfg t),
        Piece.text "(SELECT NULL WHERE 1=0)"] := by
    simp [insertB, uniqueTruthy, conflictIsUndefined, conflictIsFalse,
      conflictOptTruthy, tableM, tableAux, tableEntryM, rowsM, normalizeRows,
      isMySQLCfg, isPostgresCfg]
  constructor
  · rw [show runText cfg (insertB cfg fuel [.plain t] (.rlist []) {}) =
        Except.ok (textOf cfg [Piece.text "INSERT ", Piece.text "INTO ",
          Piece.text (identF cfg t), Piece.text "(SELECT NULL WHERE 1=0)"]) by
      rw [hins]; rfl]
    rcases cfg with ⟨fl, cc⟩
    cases fl <;>
      simp [textOf, isPostgresCfg, chunksOf, jsToStringMY, jsToStringPG,
        jsChunksJoin, ← String.append_assoc]
  · rw [hins]
    rfl

/-- C10: the keyword-safety test passes exactly when the first character is
an ASCII letter or a space — the regex is an unanchored prefix match — so a
value such as a;-- passes the check and is emitted into the SQL text
verbatim (here through the CAST keyword position of the indexed dialect),
rather than raising the malformed-input error. -/
theorem C10_keyword_prefix_check :
    (∀ name : String, keywordOk name = true ↔
        ∃ c rest, name.toList = c :: rest ∧ (c.isAlpha = true ∨ c = ' ')) ∧
    keywordOk "a;--" = true ∧
    runText pgCfg (exprM pgCfg 100 (.arr [.str "CAST", .sym "x", .str "a;--"])) =
      Except.ok "\"x\"::a;--" ∧
    runText myCfg (exprM myCfg 100 (.arr [.str "CAST", .sym "x", .str "a;--"])) =
      Except.ok "CAST(`x` AS a;--)" := by
  refine ⟨fun name => ?_, by decide, rfl, rfl⟩
  cases hn : name.data with
  | nil => simp [keywordOk, String.toList, hn]
  | cons c rest =>
      simp only [keywordOk, String.toList, hn]
      constructor
      · intro h
        refine ⟨c, rest, rfl, ?_⟩
        rcases Bool.or_eq_true_iff.mp h with h1 | h1
        · exact Or.inl h1
        · exact Or.inr (by simpa using h1)
      · rintro ⟨c2, rest2, heq, hc⟩
        cases heq
        rcases hc with h1 | h1
        · simp [h1]
        · simp [h1]

/-- C8: for every strictly-binary operator, an operand count other than 2
(off the unary path) makes expr raise the Arity error synchronously, whose
message names the operator and the expected and actual operand counts; with
exactly 2 operands the operands compile in order, joined by the operator and
parenthesized, in either dialect. -/
theorem C8_binary_operator_arity (cfg : Cfg) (fuel : Nat) (fn : String)
    (hfn : BinaryOperators.contains fn = true) :
    (∀ ops : List JVal, ops.length ≠ 2 →
        ¬(MaybeUnaryOperators.contains fn = true ∧ ops.length = 1) →
        exprM cfg (fuel + 3) (JVal.arr (JVal.str fn :: ops)) =
          Except.error (Err.arity fn 2 ops.length) ∧
        (Err.arity fn 2 ops.length).message =
          "\"" ++ fn ++ "\" requires exactly " ++ toString 2 ++ " operands (" ++
            toString ops.length ++ " supplied)") ∧
    (∀ a b : JVal, ∀ ra : JVal, ∀ pa : List Piece, ∀ rb : JVal, ∀ qb : List Piece,
        exprM cfg (fuel + 4) a = Except.ok (ra, pa) →
        exprM cfg (fuel + 3) b = Except.ok (rb, qb) →
        exprM cfg (fuel + 8) (JVal.arr [JVal.str fn, a, b]) =
          Except.ok (JVal.arr [ra, rb],
            Piece.text "(" :: pa ++ Piece.text (" " ++ fn ++ " ") :: qb ++
              [Piece.text ")"])) := by
  have hOp : Operators.contains fn = true := binop_operator hfn
  have hup : jsToUpper fn = fn := jsToUpper_binop hfn
  constructor
  · intro ops hlen hun
    refine ⟨?_, rfl⟩
    have harity : exprArrM cfg (fuel + 2) fn ops = throwE (Err.arity fn 2 ops.length) := by
      rcases ops with _ | ⟨a, _ | ⟨b, rest⟩⟩
      · show exprArrMain cfg (fuel + 1) fn [] = _
        exact exprArrMain_binary_arity cfg fuel fn [] hOp hfn hlen
      · have hu : ¬(MaybeUnaryOperators.contains fn = true) := fun hh => hun ⟨hh, rfl⟩
        rw [exprArrM_not_unary cfg (fuel + 1) fn a hu]
        exact exprArrMain_binary_arity cfg fuel fn [a] hOp hfn hlen
      · show exprArrMain cfg (fuel + 1) fn (a :: b :: rest) = _
        exact exprArrMain_binary_arity cfg fuel fn (a :: b :: rest) hOp hfn hlen
    rw [exprM.eq_3, hup, harity]
    rfl
  · intro a b ra pa rb qb ha hb
    exact exprM_op_pair cfg fuel fn a b hOp hup ra rb pa qb ha hb

/-- C8 witness: the operator = with one operand raises the arity error with
its exact message, and with two operands compiles to a parenthesized
equation, here under the positional dialect. -/
theorem C8_binary_operator_arity_witness :
    BinaryOperators.contains "=" = true ∧
    ([JVal.num 1].length ≠ 2 ∧
      ¬(MaybeUnaryOperators.contains "=" = true ∧ [JVal.num 1].length = 1)) ∧
    exprM myCfg 3 (JVal.arr [JVal.str "=", JVal.num 1]) =
      Except.error (Err.arity "=" 2 1) ∧
    (Err.arity "=" 2 1).message = "\"=\" requires exactly 2 operands (1 supplied)" ∧
    exprM myCfg 8 (JVal.arr [JVal.str "=", JVal.sym "x", JVal.num 5]) =
      Except.ok (JVal.arr [JVal.sym "x", JVal.num 5],
        [Piece.text "(", Piece.text "`x`", Piece.text " = ", Piece.text "5",
         Piece.text ")"]) := by
  have h := C8_binary_operator_arity myCfg 0 "=" (by decide)
  have h1 := h.1 [JVal.num 1] (by decide) (by decide)
  have h2 := h.2 (JVal.sym "x") (JVal.num 5) (JVal.sym "x") [Piece.text "`x`"]
    (JVal.num 5) [Piece.text "5"] rfl rfl
  exact ⟨by decide, ⟨by decide, by decide⟩, h1.1, by decide, h2⟩

/-- C9: compiling an operator-form array loses its first element — the
compiled value the caller's array holds afterwards is the operand list
without the operator name — so a second compile of that value does not
reproduce the first result: for any dialect it fails with the
first-element error naming the former first operand. -/
theorem C9_array_mutation (cfg : Cfg) (f g : Nat) :
    (exprM cfg (f + 8) (JVal.arr [JVal.str "=", JVal.sym "a", JVal.num 1])
        = Except.ok ((JVal.arr [JVal.sym "a", JVal.num 1]),
            [Piece.text "(", Piece.text (identF cfg "a"), Piece.text " = ",
             Piece.text "1", Piece.text ")"])) ∧
    exprM cfg (g + 1) (JVal.arr [JVal.sym "a", JVal.num 1])
        = Except.error (Err.firstElement (jsDisplay (JVal.sym "a"))) :=
  ⟨rfl, rfl⟩

/-- C6 counterexample: the claim prepends a percent sign exactly when the
start anchor is absent, but for the unanchored source .*a the code declines
to prepend because the translated pattern already starts with the percent
produced from .* — the code yields the pattern percent-a-percent where the
claim's transcription yields a doubled leading percent. -/
theorem C6_counterexample_leading_percent :
    likePattern ".*a" = "%a%" ∧
    claimLikePattern ".*a" = "%%a%" ∧
    likePattern ".*a" ≠ claimLikePattern ".*a" ∧
    isComplexFor ".*a" (likePattern ".*a") = false ∧
    (regexpF pgCfg ".*a" "" false).pattern = "%a%" := by
  refine ⟨rfl, rfl, by decide, rfl, rfl⟩

/-- C6 (amended): for a source that is non-complex after translation, the
translator strips anchors, escapes LIKE metacharacters, converts .* to
percent and remaining dots to underscores, adds a leading (trailing) percent
exactly when the start (end) anchor is absent and the translated pattern
does not already start (end) with an unescaped percent, and appends a
case-sensitive comparison as col LIKE pattern, a case-insensitive one as
col ILIKE pattern under the indexed dialect and as LOWER(col) LIKE
lowered-pattern under the positional dialect. -/
theorem C6_like_translation (source flags col : String) (cfg : Cfg)
    (hnc : isComplexFor source (likePattern source) = false) :
    (regexpF cfg source flags false).pattern = likePattern source ∧
    (regexpF cfg source flags false).complex = false ∧
    (flags.toList.contains 'i' = false →
      (regexpF cfg source flags false).appendF col false =
        okM () [Piece.text (identF cfg col ++ " LIKE "),
                Piece.text (escapeStringFor cfg (likePattern source))] ∧
      textOf cfg [Piece.text (identF cfg col ++ " LIKE "),
                  Piece.text (escapeStringFor cfg (likePattern source))] =
        (identF cfg col ++ " LIKE ") ++ escapeStringFor cfg (likePattern source)) ∧
    (flags.toList.contains 'i' = true → isPostgresCfg cfg = true →
      (regexpF cfg source flags false).appendF col false =
        okM () [Piece.text (identF cfg col ++ " ILIKE "),
                Piece.text (escapeStringFor cfg (likePattern source))] ∧
      textOf cfg [Piece.text (identF cfg col ++ " ILIKE "),
                  Piece.text (escapeStringFor cfg (likePattern source))] =
        (identF cfg col ++ " ILIKE ") ++ escapeStringFor cfg (likePattern source)) ∧
    (flags.toList.contains 'i' = true → isPostgresCfg cfg = false →
      (regexpF cfg source flags false).appendF col false =
        okM () [Piece.text ("LOWER(" ++ identF cfg col ++ ") LIKE "),
                Piece.text (escapeStringFor cfg (jsToLower (likePattern source)))] ∧
      textOf cfg [Piece.text ("LOWER(" ++ identF cfg col ++ ") LIKE "),
                  Piece.text (escapeStringFor cfg (jsToLower (likePattern source)))] =
        ("LOWER(" ++ identF cfg col ++ ") LIKE ") ++
          escapeStringFor cfg (jsToLower (likePattern source))) := by
  refine ⟨?_, ?_, fun hi => ⟨?_, textOf_two_texts cfg _ _⟩,
    fun hi hp => ⟨?_, textOf_two_texts cfg _ _⟩,
    fun hi hp => ⟨?_, textOf_two_texts cfg _ _⟩⟩
  · simp [regexpF, hnc]
  · simp [regexpF, hnc]
  · have hi2 : 'i' ∉ flags.data := by simpa using hi
    simp [regexpF, hnc, hi2, valueString]
  · have hi2 : 'i' ∈ flags.data := by simpa using hi
    simp [regexpF, hnc, hi2, hp, valueString]
  · have hi2 : 'i' ∈ flags.data := by simpa using hi
    simp [regexpF, hnc, hi2, hp, valueString]

/-- C6 witness: the non-complex source abc with no flags against column
name under the indexed dialect. -/
theorem C6_like_translation_witness :
    isComplexFor "abc" (likePattern "abc") = false ∧
    ((regexpF pgCfg "abc" "" false).pattern = likePattern "abc" ∧
     (regexpF pgCfg "abc" "" false).complex = false ∧
     (("" : String).toList.contains 'i' = false →
       (regexpF pgCfg "abc" "" false).appendF "name" false =
         okM () [Piece.text (identF pgCfg "name" ++ " LIKE "),
                 Piece.text (escapeStringFor pgCfg (likePattern "abc"))] ∧
       textOf pgCfg [Piece.text (identF pgCfg "name" ++ " LIKE "),
                     Piece.text (escapeStringFor pgCfg (likePattern "abc"))] =
         (identF pgCfg "name" ++ " LIKE ") ++
           escapeStringFor pgCfg (likePattern "abc")) ∧
     (("" : String).toList.contains 'i' = true → isPostgresCfg pgCfg = true →
       (regexpF pgCfg "abc" "" false).appendF "name" false =
         okM () [Piece.text (identF pgCfg "name" ++ " ILIKE "),
                 Piece.text (escapeStringFor pgCfg (likePattern "abc"))] ∧
       textOf pgCfg [Piece.text (identF pgCfg "name" ++ " ILIKE "),
                     Piece.text (escapeStringFor pgCfg (likePattern "abc"))] =
         (identF pgCfg "name" ++ " ILIKE ") ++
           escapeStringFor pgCfg (likePattern "abc")) ∧
     (("" : String).toList.contains 'i' = true → isPostgresCfg pgCfg = false →
       (regexpF pgCfg "abc" "" false).appendF "name" false =
         okM () [Piece.text ("LOWER(" ++ identF pgCfg "name" ++ ") LIKE "),
                 Piece.text (escapeStringFor pgCfg (jsToLower (likePattern "abc")))] ∧
       textOf pgCfg [Piece.text ("LOWER(" ++ identF pgCfg "name" ++ ") LIKE "),
                     Piece.text (escapeStringFor pgCfg (jsToLower (likePattern "abc")))] =
         ("LOWER(" ++ identF pgCfg "name" ++ ") LIKE ") ++
           escapeStringFor pgCfg (jsToLower (likePattern "abc")))) :=
  ⟨by decide, C6_like_translation "abc" "" "name" pgCfg (by decide)⟩

theorem paramsOf_nil : paramsOf [] = [] := rfl

theorem paramsOf_cons_text (s : String) (ps : List Piece) :
    paramsOf (Piece.text s :: ps) = paramsOf ps := rfl

theorem paramsOf_cons_param (v : JVal) (ps : List Piece) :
    paramsOf (Piece.param v :: ps) = v :: paramsOf ps := rfl

theorem paramsOf_append (ps qs : List Piece) :
    paramsOf (ps ++ qs) = paramsOf ps ++ paramsOf qs := by
  simp [paramsOf, List.filterMap_append]

/-- The conjunctive form over two plain-scalar pairs, through expr. -/
theorem exprM_obj_pair_plain (cfg : Cfg) (m : Nat) (a b : String) (x y : JVal)
    (hx : plainScalar x = true) (hy : plainScalar y = true) :
    exprM cfg (m + 4) (JVal.obj [(a, x), (b, y)]) =
      Except.ok (JVal.obj [(a, x), (b, y)],
        Piece.text (identF cfg a ++ "=") :: scalarPieces cfg x ++
          Piece.text " AND " :: Piece.text (identF cfg b ++ "=") ::
            scalarPieces cfg y) := by
  rw [exprM.eq_5, exprObjM_plain_pair cfg m a b x y hx hy]
  simp only [bind_okM, appendPre_okM, pure_eq_okM, List.append_nil]
  rfl

/-- The operator form AND-of-two-equations over the same scalars, through
expr. -/
theorem exprM_and_pair_plain (cfg : Cfg) (m : Nat) (a b : String) (x y : JVal)
    (hx : plainScalar x = true) (hy : plainScalar y = true) :
    exprM cfg (m + 13)
        (JVal.arr [JVal.str "AND",
          JVal.arr [JVal.str "=", JVal.sym a, x],
          JVal.arr [JVal.str "=", JVal.sym b, y]]) =
      Except.ok (JVal.arr [JVal.arr [JVal.sym a, x], JVal.arr [JVal.sym b, y]],
        Piece.text "(" ::
          (Piece.text "(" :: Piece.text (identF cfg a) ::
            Piece.text " = " :: scalarPieces cfg x ++ [Piece.text ")"]) ++
          Piece.text " AND " ::
          (Piece.text "(" :: Piece.text (identF cfg b) ::
            Piece.text " = " :: scalarPieces cfg y ++ [Piece.text ")"]) ++
          [Piece.text ")"]) := by
  have hA := exprM_op_pair cfg (m + 1) "=" (JVal.sym a) x (by decide) (by decide)
    (JVal.sym a) x [Piece.text (identF cfg a)] (scalarPieces cfg x)
    (exprM_plain cfg (m + 3) (JVal.sym a) rfl) (exprM_plain cfg (m + 2) x hx)
  have hB := exprM_op_pair cfg m "=" (JVal.sym b) y (by decide) (by decide)
    (JVal.sym b) y [Piece.text (identF cfg b)] (scalarPieces cfg y)
    (exprM_plain cfg (m + 2) (JVal.sym b) rfl) (exprM_plain cfg (m + 1) y hy)
  have h := exprM_op_pair cfg (m + 5) "AND"
    (JVal.arr [JVal.str "=", JVal.sym a, x]) (JVal.arr [JVal.str "=", JVal.sym b, y])
    (by decide) (by decide)
    (JVal.arr [JVal.sym a, x]) (JVal.arr [JVal.sym b, y]) _ _ hA hB
  simpa using h

/-- C3 counterexample: under the indexed dialect the two forms compile to
different SQL texts — the conjunctive form emits no parentheses and no
spaces around the equals signs, the operator form parenthesizes every
clause — so the compiled conditions are not equal as the claim states. -/
theorem C3_counterexample_texts :
    runText pgCfg (exprM pgCfg 20 (JVal.obj [("a", JVal.num 1), ("b", JVal.num 2)])) =
      Except.ok "\"a\"=1 AND \"b\"=2" ∧
    runText pgCfg (exprM pgCfg 20
        (JVal.arr [JVal.str "AND",
          JVal.arr [JVal.str "=", JVal.sym "a", JVal.num 1],
          JVal.arr [JVal.str "=", JVal.sym "b", JVal.num 2]])) =
      Except.ok "((\"a\" = 1) AND (\"b\" = 2))" ∧
    ("\"a\"=1 AND \"b\"=2" ≠ ("((\"a\" = 1) AND (\"b\" = 2))" : String)) :=
  ⟨rfl, rfl, by decide⟩

/-- C3 (amended): for every pair of keys and plain-scalar values, in either
dialect, the conjunctive form and the AND-of-equations operator form both
compile, bind the same parameter vector, and emit the same condition text up
to parentheses and spaces (the conjunctive form writes col=value joined by
AND, the operator form parenthesizes each equation and spaces the
operators). -/
theorem C3_conjunctive_vs_operator (cfg : Cfg) (m : Nat) (a b : String)
    (x y : JVal) (hx : plainScalar x = true) (hy : plainScalar y = true) :
    exprM cfg (m + 4) (JVal.obj [(a, x), (b, y)]) =
      Except.ok (JVal.obj [(a, x), (b, y)],
        Piece.text (identF cfg a ++ "=") :: scalarPieces cfg x ++
          Piece.text " AND " :: Piece.text (identF cfg b ++ "=") ::
            scalarPieces cfg y) ∧
    exprM cfg (m + 13)
        (JVal.arr [JVal.str "AND",
          JVal.arr [JVal.str "=", JVal.sym a, x],
          JVal.arr [JVal.str "=", JVal.sym b, y]]) =
      Except.ok (JVal.arr [JVal.arr [JVal.sym a, x], JVal.arr [JVal.sym b, y]],
        Piece.text "(" ::
          (Piece.text "(" :: Piece.text (identF cfg a) ::
            Piece.text " = " :: scalarPieces cfg x ++ [Piece.text ")"]) ++
          Piece.text " AND " ::
          (Piece.text "(" :: Piece.text (identF cfg b) ::
            Piece.text " = " :: scalarPieces cfg y ++ [Piece.text ")"]) ++
          [Piece.text ")"]) ∧
    paramsOf (Piece.text (identF cfg a ++ "=") :: scalarPieces cfg x ++
        Piece.text " AND " :: Piece.text (identF cfg b ++ "=") ::
          scalarPieces cfg y) =
      paramsOf (Piece.text "(" ::
        (Piece.text "(" :: Piece.text (identF cfg a) ::
          Piece.text " = " :: scalarPieces cfg x ++ [Piece.text ")"]) ++
        Piece.text " AND " ::
        (Piece.text "(" :: Piece.text (identF cfg b) ::
          Piece.text " = " :: scalarPieces cfg y ++ [Piece.text ")"]) ++
        [Piece.text ")"]) ∧
    eraseParenSpace (textOf cfg
      (Piece.text (identF cfg a ++ "=") :: scalarPieces cfg x ++
        Piece.text " AND " :: Piece.text (identF cfg b ++ "=") ::
          scalarPieces cfg y)) =
      eraseParenSpace (textOf cfg (Piece.text "(" ::
        (Piece.text "(" :: Piece.text (identF cfg a) ::
          Piece.text " = " :: scalarPieces cfg x ++ [Piece.text ")"]) ++
        Piece.text " AND " ::
        (Piece.text "(" :: Piece.text (identF cfg b) ::
          Piece.text " = " :: scalarPieces cfg y ++ [Piece.text ")"]) ++
        [Piece.text ")"])) := by
  refine ⟨exprM_obj_pair_plain cfg m a b x y hx hy,
    exprM_and_pair_plain cfg m a b x y hx hy, ?_, ?_⟩
  · simp [paramsOf_cons_text, paramsOf_append, paramsOf_nil]
  · have e1 : eraseParenSpace "(" = [] := by decide
    have e2 : eraseParenSpace ")" = [] := by decide
    have e3 : eraseParenSpace " AND " = ['A', 'N', 'D'] := by decide
    have e4 : eraseParenSpace " = " = ['='] := by decide
    have e5 : eraseParenSpace "=" = ['='] := by decide
    have e6 : eraseParenSpace "))" = [] := by decide
    have e7 : eraseParenSpace "" = [] := by decide
    cases hPG : isPostgresCfg cfg with
    | false =>
        rw [textOf_my cfg _ hPG, textOf_my cfg _ hPG]
        simp [renderMY, renderMY_append, eraseParenSpace_append,
          e1, e2, e3, e4, e5, e6, e7]
    | true =>
        rw [textOf_pg cfg _ hPG, textOf_pg cfg _ hPG]
        simp [renderPGAux, renderPGAux_append, countParams_cons_text,
          eraseParenSpace_append, e1, e2, e3, e4, e5, e6, e7]

/-- C3 witness: keys a and b with the numbers 1 and 2 under the indexed
dialect. -/
theorem C3_conjunctive_vs_operator_witness :
    plainScalar (JVal.num 1) = true ∧ plainScalar (JVal.num 2) = true ∧
    (exprM pgCfg 4 (JVal.obj [("a", JVal.num 1), ("b", JVal.num 2)]) =
      Except.ok (JVal.obj [("a", JVal.num 1), ("b", JVal.num 2)],
        Piece.text (identF pgCfg "a" ++ "=") :: scalarPieces pgCfg (JVal.num 1) ++
          Piece.text " AND " :: Piece.text (identF pgCfg "b" ++ "=") ::
            scalarPieces pgCfg (JVal.num 2)) ∧
    exprM pgCfg 13
        (JVal.arr [JVal.str "AND",
          JVal.arr [JVal.str "=", JVal.sym "a", JVal.num 1],
          JVal.arr [JVal.str "=", JVal.sym "b", JVal.num 2]]) =
      Except.ok (JVal.arr [JVal.arr [JVal.sym "a", JVal.num 1],
          JVal.arr [JVal.sym "b", JVal.num 2]],
        Piece.text "(" ::
          (Piece.text "(" :: Piece.text (identF pgCfg "a") ::
            Piece.text " = " :: scalarPieces pgCfg (JVal.num 1) ++ [Piece.text ")"]) ++
          Piece.text " AND " ::
          (Piece.text "(" :: Piece.text (identF pgCfg "b") ::
            Piece.text " = " :: scalarPieces pgCfg (JVal.num 2) ++ [Piece.text ")"]) ++
          [Piece.text ")"]) ∧
    paramsOf (Piece.text (identF pgCfg "a" ++ "=") :: scalarPieces pgCfg (JVal.num 1) ++
        Piece.text " AND " :: Piece.text (identF pgCfg "b" ++ "=") ::
          scalarPieces pgCfg (JVal.num 2)) =
      paramsOf (Piece.text "(" ::
        (Piece.text "(" :: Piece.text (identF pgCfg "a") ::
          Piece.text " = " :: scalarPieces pgCfg (JVal.num 1) ++ [Piece.text ")"]) ++
        Piece.text " AND " ::
        (Piece.text "(" :: Piece.text (identF pgCfg "b") ::
          Piece.text " = " :: scalarPieces pgCfg (JVal.num 2) ++ [Piece.text ")"]) ++
        [Piece.text ")"]) ∧
    eraseParenSpace (textOf pgCfg
      (Piece.text (identF pgCfg "a" ++ "=") :: scalarPieces pgCfg (JVal.num 1) ++
        Piece.text " AND " :: Piece.text (identF pgCfg "b" ++ "=") ::
          scalarPieces pgCfg (JVal.num 2))) =
      eraseParenSpace (textOf pgCfg (Piece.text "(" ::
        (Piece.text "(" :: Piece.text (identF pgCfg "a") ::
          Piece.text " = " :: scalarPieces pgCfg (JVal.num 1) ++ [Piece.text ")"]) ++
        Piece.text " AND " ::
        (Piece.text "(" :: Piece.text (identF pgCfg "b") ::
          Piece.text " = " :: scalarPieces pgCfg (JVal.num 2) ++ [Piece.text ")"]) ++
        [Piece.text ")"]))) :=
  ⟨rfl, rfl,
   C3_conjunctive_vs_operator pgCfg 0 "a" "b" (JVal.num 1) (JVal.num 2) rfl rfl⟩
